import Mathlib

/-!
Shallow embedding of the Cortex ruler (`pkg/ruler/ruler.go`) and proofs about
its sync loop, sharding, notifier pool, alert dispatch and inspection paths.

External collaborators (rule store, ring, file mapper, Prometheus rule manager,
notifier transport) are modelled as oracles supplied in an environment record;
the control flow of the ruler's own functions is translated statement by
statement from the Go source.  Effects that the Go code performs against those
collaborators (mapping files, creating/stopping managers, bumping counters,
querying the ring) are recorded in an explicit trace so that theorems can speak
about what a sync tick did and in which order.
-/

namespace Ruler

/-! ### FNV-1a hashing (Go `hash/fnv`, 32-bit) -/

/-- The 32-bit FNV offset basis. -/
def fnvOffsetBasis : Nat := 2166136261

/-- The 32-bit FNV prime. -/
def fnvPrime : Nat := 16777619

/-- One FNV-1a step: xor the byte in, then multiply by the prime (mod 2^32). -/
def fnv1aStep (h b : Nat) : Nat := ((h ^^^ b) * fnvPrime) % 2 ^ 32

/-- FNV-1a over a byte sequence, starting from the offset basis. -/
def fnv1a32 (bs : List Nat) : Nat := bs.foldl fnv1aStep fnvOffsetBasis

/-- UTF-8 encoding of one character (byte values as `Nat`). -/
def charUTF8 (c : Char) : List Nat :=
  let v := c.toNat
  if v < 0x80 then [v]
  else if v < 0x800 then [0xC0 ||| (v >>> 6), 0x80 ||| (v &&& 0x3F)]
  else if v < 0x10000 then
    [0xE0 ||| (v >>> 12), 0x80 ||| ((v >>> 6) &&& 0x3F), 0x80 ||| (v &&& 0x3F)]
  else
    [0xF0 ||| (v >>> 18), 0x80 ||| ((v >>> 12) &&& 0x3F),
     0x80 ||| ((v >>> 6) &&& 0x3F), 0x80 ||| (v &&& 0x3F)]

/-- UTF-8 bytes of a string. -/
def strUTF8 (s : String) : List Nat := s.data.flatMap charUTF8

/-- The state of a `hash/fnv` 32-bit hasher (`fnv.New32a()`). -/
structure FnvHasher where
  state : Nat
  deriving DecidableEq

/-- Go `Reset()`: put the hasher back at the offset basis. -/
def FnvHasher.reset (_h : FnvHasher) : FnvHasher := ⟨fnvOffsetBasis⟩

/-- Go `Write(bs)`: fold the bytes into the hasher state (never fails in Go). -/
def FnvHasher.write (h : FnvHasher) (bs : List Nat) : FnvHasher :=
  ⟨bs.foldl fnv1aStep h.state⟩

/-- Go `Sum32()`: read the current state. -/
def FnvHasher.sum32 (h : FnvHasher) : Nat := h.state

/-! ### Association-list helpers (Go maps with an explicit iteration order) -/

/-- Tenant identifiers (Go `string` user IDs). -/
abbrev TenantID := String

/-- Lookup in an association list, first match wins. -/
def alook {α : Type} (u : TenantID) : List (TenantID × α) → Option α
  | [] => none
  | (k, v) :: rest => if k = u then some v else alook u rest

/-- Keys of an association list. -/
def akeys {α : Type} (m : List (TenantID × α)) : List TenantID := m.map Prod.fst

/-- Replace the value stored at an existing key (identity if absent). -/
def aset {α : Type} (u : TenantID) (v : α) : List (TenantID × α) → List (TenantID × α)
  | [] => []
  | (k, w) :: rest =>
    if k = u then (u, v) :: aset u v rest else (k, w) :: aset u v rest

/-- Increment a `Nat`-valued counter map at a key (used for counter vectors). -/
def abump (u : TenantID) : List (TenantID × Nat) → List (TenantID × Nat)
  | [] => [(u, 1)]
  | (k, v) :: rest => if k = u then (k, v + 1) :: rest else (k, v) :: abump u rest

/-- Read a counter map, missing keys count as zero. -/
def alookC (u : TenantID) (m : List (TenantID × Nat)) : Nat := (alook u m).getD 0

/-- Boolean membership in a list of tenant IDs. -/
def memb (u : TenantID) (l : List TenantID) : Bool := l.any fun v => v = u

/-- Whether an `Except` is an error. -/
def isErr {ε α : Type} : Except ε α → Bool
  | .error _ => true
  | .ok _ => false

deriving instance DecidableEq for Except

/-! ### Alerts and `sendAlerts` -/

/-- Prometheus alert state (`promRules.StateInactive/StatePending/StateFiring`). -/
inductive AlertState where
  | inactive
  | pending
  | firing
  deriving DecidableEq

/-- The `String()` rendering of an alert state, as Prometheus prints it. -/
def AlertState.toStr : AlertState → String
  | .inactive => "inactive"
  | .pending => "pending"
  | .firing => "firing"

/-- One `promRules.Alert`.  `time.Time` values are modelled as `Nat` instants
with `0` as the zero value (`IsZero` becomes `= 0`); the float-valued `Value`
field is not read by any code modelled here and is omitted. -/
structure Alert where
  state : AlertState
  labels : List (String × String)
  annotations : List (String × String)
  activeAt : Nat
  firedAt : Nat
  resolvedAt : Nat
  lastSentAt : Nat
  validUntil : Nat
  deriving DecidableEq

/-- One `notifier.Alert` as built by `sendAlerts`. -/
structure NotifierAlert where
  startsAt : Nat
  endsAt : Nat
  labels : List (String × String)
  annotations : List (String × String)
  generatorURL : String
  deriving DecidableEq

/-- Hex digit used by percent-encoding. -/
def hexDigit (n : Nat) : Char := "0123456789ABCDEF".data.getD n '0'

/-- Characters Go's `url.QueryEscape` leaves unescaped. -/
def queryUnescaped (c : Char) : Bool :=
  c.isAlphanum || c = '-' || c = '_' || c = '.' || c = '~'

/-- Escape one character the way `url.QueryEscape` does: unreserved characters
pass through, space becomes `+`, everything else is percent-encoded per UTF-8
byte. -/
def escapeChar (c : Char) : List Char :=
  if queryUnescaped c then [c]
  else if c = ' ' then ['+']
  else (charUTF8 c).flatMap fun b => ['%', hexDigit (b / 16), hexDigit (b % 16)]

/-- Go `url.QueryEscape`. -/
def queryEscape (s : String) : String := ⟨s.data.flatMap escapeChar⟩

/-- Prometheus `strutil.TableLinkForExpression`. -/
def tableLinkForExpression (expr : String) : String :=
  "/graph?g0.expr=" ++ queryEscape expr ++ "&g0.tab=1"

/-- The notify function produced by `sendAlerts(n, externalURL)`: filters the
input alerts and hands the result to `n.Send`.  The `Option` is `some sent`
when `n.Send(res...)` is invoked (`len(alerts) > 0`) and `none` otherwise. -/
def sendAlertsNotify (externalURL expr : String) (alerts : List Alert) :
    Option (List NotifierAlert) :=
  let res := alerts.filterMap fun alert =>
    if alert.state = .pending then none
    else some
      { startsAt := alert.firedAt
        endsAt := if alert.resolvedAt = 0 then 0 else alert.resolvedAt
        labels := alert.labels
        annotations := alert.annotations
        generatorURL := externalURL ++ tableLinkForExpression expr }
  if alerts.length > 0 then some res else none

/-! ### Rule groups and the sync-loop state machine -/

/-- A stored rule group as the sync loop sees it (`store.RuleGroup`): only the
identity fields `User`, `Namespace`, `Name` are read by `loadRules`; the rule
contents travel opaquely into the mapper oracle. -/
structure RuleGroup where
  user : String
  ns : String
  name : String
  deriving DecidableEq

/-- The string hashed for sharding: `g.User + "/" + g.Namespace + "/" + g.Name`. -/
def groupID (g : RuleGroup) : String := g.user ++ "/" ++ g.ns ++ "/" ++ g.name

/-- The shard key of a rule group: 32-bit FNV-1a of the UTF-8 bytes of its ID. -/
def shardKey (g : RuleGroup) : Nat := fnv1a32 (strUTF8 (groupID g))

/-- Observable effects a sync tick performs against external collaborators.
Each constructor corresponds to a call site in `ruler.go`: a ring lookup in
`ownsRule`, the ring-error counter bump, the per-user abort log when ring
ownership cannot be verified, a `mapper.MapRules` invocation, a per-user sync
error log, the `configUpdatesTotal` bump, `newManager` / `manager.Run()` /
`manager.Update` / `manager.Stop()`, and `applyConfig` on a fresh notifier. -/
inductive Effect where
  | ringLookup (key : Nat)
  | incRingCheckErrors
  | ringErrAbort (user : TenantID)
  | mapRules (user : TenantID)
  | syncErr (user : TenantID)
  | incConfigUpdates (user : TenantID)
  | createManager (user : TenantID)
  | runManager (user : TenantID)
  | updateManager (user : TenantID) (files : List String)
  | stopManager (user : TenantID)
  | applyNotifierConfig (user : TenantID)
  deriving DecidableEq

/-- Mutable state of the `Ruler` that the modelled functions touch:
`userManagers` (tenant → file list last successfully loaded into its manager),
`notifiers` (tenant → number of `applyConfig` calls on the registered
notifier), the `ringCheckErrors` counter and the `configUpdatesTotal` vector. -/
structure RulerState where
  userManagers : List (TenantID × List String)
  notifiers : List (TenantID × Nat)
  ringCheckErrors : Nat
  configUpdates : List (TenantID × Nat)
  deriving DecidableEq

/-- The initial ruler state: empty registry and maps, zeroed counters. -/
def initState : RulerState := ⟨[], [], 0, []⟩

/-- Oracles for the external collaborators of one sync tick.  `ringGet`
returns, on success, the non-empty replication set for a key (first ingester
address plus the rest); `mapRules` is the file mapper; `applyConfigOk` is
whether `applyConfig(r.notifierCfg)` succeeds (its argument is the same fixed
config on every call); `updateResult` is `manager.Update`. -/
structure Env where
  enableSharding : Bool
  selfAddr : String
  storeResult : Except String (List (TenantID × List RuleGroup))
  ringGet : Nat → Except String (String × List String)
  mapRules : TenantID → List RuleGroup → Except String (Bool × List String)
  applyConfigOk : Bool
  updateResult : TenantID → List String → Except String Unit

/-- Go `ownsRule`: query the ring at a hash; on error bump `ringCheckErrors` and
fail; on success compare the first ingester's address with our own. -/
def ownsRule (env : Env) (st : RulerState) (hash : Nat) :
    Except String Bool × RulerState × List Effect :=
  match env.ringGet hash with
  | .error e =>
    (.error e, { st with ringCheckErrors := st.ringCheckErrors + 1 },
     [.ringLookup hash, .incRingCheckErrors])
  | .ok (a, _) => (.ok (a = env.selfAddr), st, [.ringLookup hash])

/-- The sharding filter inside `loadRules`: for each group, reset the (shared)
hasher, write the group ID, take `Sum32`, and ask `ownsRule`; an `ownsRule`
error propagates out (the Go code `return`s from `loadRules`); owned groups
are retained in order. -/
def filterGroups (env : Env) (hasher : FnvHasher) (st : RulerState) :
    List RuleGroup →
      Except String (List RuleGroup) × FnvHasher × RulerState × List Effect
  | [] => (.ok [], hasher, st, [])
  | g :: rest =>
    let h2 := (hasher.reset).write (strUTF8 (groupID g))
    let hash := h2.sum32
    match ownsRule env st hash with
    | (.error e, st1, effs) => (.error e, h2, st1, effs)
    | (.ok owned, st1, effs) =>
      match filterGroups env h2 st1 rest with
      | (.error e, h3, st2, effs2) => (.error e, h3, st2, effs ++ effs2)
      | (.ok fg, h3, st2, effs2) =>
        (.ok (if owned then g :: fg else fg), h3, st2, effs ++ effs2)

/-- Go `getOrCreateNotifier`: return the registered notifier if present;
otherwise build one, start its run loop, call `applyConfig` once, and register
it only when `applyConfig` succeeded. -/
def getOrCreateNotifier (env : Env) (st : RulerState) (userID : TenantID) :
    Except String Unit × RulerState × List Effect :=
  match alook userID st.notifiers with
  | some _ => (.ok (), st, [])
  | none =>
    if env.applyConfigOk then
      (.ok (), { st with notifiers := st.notifiers ++ [(userID, 1)] },
       [.applyNotifierConfig userID])
    else
      (.error "applyConfig failed", st, [.applyNotifierConfig userID])

/-- Go `newManager`: build the tenant-scoped tsdb adapter and options and fetch
the tenant's notifier; the only fallible step is `getOrCreateNotifier`. -/
def newManager (env : Env) (st : RulerState) (userID : TenantID) :
    Except String Unit × RulerState × List Effect :=
  match getOrCreateNotifier env st userID with
  | (.error e, st1, effs) => (.error e, st1, effs)
  | (.ok _, st1, effs) => (.ok (), st1, effs ++ [.createManager userID])

/-- Go `syncManager`: map the rule files; on mapper error log and return.  When
the mapper reports a change, bump `configUpdatesTotal{user}`, create (and
register) the manager if absent, then `Update` it; each failure logs and
returns. -/
def syncManager (env : Env) (st : RulerState) (user : TenantID)
    (groups : List RuleGroup) : RulerState × List Effect :=
  match env.mapRules user groups with
  | .error _ => (st, [.mapRules user, .syncErr user])
  | .ok (update, files) =>
    if update then
      let st1 := { st with configUpdates := abump user st.configUpdates }
      let base := [.mapRules user, .incConfigUpdates user]
      match alook user st1.userManagers with
      | some _ =>
        match env.updateResult user files with
        | .error _ => (st1, base ++ [.updateManager user files, .syncErr user])
        | .ok _ =>
          ({ st1 with userManagers := aset user files st1.userManagers },
           base ++ [.updateManager user files])
      | none =>
        match newManager env st1 user with
        | (.error _, st2, effs) => (st2, base ++ effs ++ [.syncErr user])
        | (.ok _, st2, effs) =>
          let st3 := { st2 with userManagers := st2.userManagers ++ [(user, [])] }
          let base2 := base ++ effs ++ [.runManager user]
          match env.updateResult user files with
          | .error _ => (st3, base2 ++ [.updateManager user files, .syncErr user])
          | .ok _ =>
            ({ st3 with userManagers := aset user files st3.userManagers },
             base2 ++ [.updateManager user files])
    else (st, [.mapRules user])

/-- The per-user loop of `loadRules`.  The third component is `some u` when
the tick aborted (Go `return`) while shard-filtering user `u`'s groups. -/
def syncUsers (env : Env) (hasher : FnvHasher) (st : RulerState) :
    List (TenantID × List RuleGroup) →
      RulerState × List Effect × Option TenantID
  | [] => (st, [], none)
  | (user, cfg) :: rest =>
    if env.enableSharding then
      match filterGroups env hasher st cfg with
      | (.error _, _, st1, effs) => (st1, effs ++ [.ringErrAbort user], some user)
      | (.ok filtered, h1, st1, effs) =>
        let (st2, effs2) := syncManager env st1 user filtered
        let (st3, effs3, ab) := syncUsers env h1 st2 rest
        (st3, effs ++ effs2 ++ effs3, ab)
    else
      let (st2, effs2) := syncManager env st user cfg
      let (st3, effs3, ab) := syncUsers env hasher st2 rest
      (st3, effs2 ++ effs3, ab)

/-- Go `loadRules`: poll the store (on error: log and return with nothing
changed); run the per-user loop; if it did not abort, stop and delete every
registered manager whose tenant is absent from the poll result.  The third
component reports whether (and on which user) the tick aborted. -/
def loadRules (env : Env) (st : RulerState) :
    RulerState × List Effect × Option TenantID :=
  match env.storeResult with
  | .error _ => (st, [], none)
  | .ok configs =>
    match syncUsers env ⟨fnvOffsetBasis⟩ st configs with
    | (st1, effs, some u) => (st1, effs, some u)
    | (st1, effs, none) =>
      let stale := st1.userManagers.filter fun p => !(memb p.1 (akeys configs))
      ({ st1 with
          userManagers := st1.userManagers.filter fun p => memb p.1 (akeys configs) },
       effs ++ stale.map fun p => .stopManager p.1, none)

/-- The `run` loop: one `loadRules` per tick, for a given schedule of
environments; the loop never propagates an error, it just keeps folding. -/
def runTicks (st : RulerState) : List Env → RulerState
  | [] => st
  | env :: rest => runTicks (loadRules env st).1 rest

/-- The user an effect belongs to, when it is a per-user effect. -/
def effUser : Effect → Option TenantID
  | .ringLookup _ => none
  | .incRingCheckErrors => none
  | .ringErrAbort u => some u
  | .mapRules u => some u
  | .syncErr u => some u
  | .incConfigUpdates u => some u
  | .createManager u => some u
  | .runManager u => some u
  | .updateManager u _ => some u
  | .stopManager u => some u
  | .applyNotifierConfig u => some u

/-- The ring keys looked up in a trace, in order. -/
def ringKeys (tr : List Effect) : List Nat :=
  tr.filterMap fun e =>
    match e with
    | .ringLookup k => some k
    | _ => none

/-- Whether a trace records an error during tenant `u`'s processing (a ring
abort attributed to `u` or a logged per-user sync error). -/
def erroredUser (tr : List Effect) (u : TenantID) : Bool :=
  tr.any fun e => e = .ringErrAbort u || e = .syncErr u

/-- The notifier-map invariant: keys are distinct and every registered
notifier has had `applyConfig` applied exactly once. -/
def NotifierInv (st : RulerState) : Prop :=
  (akeys st.notifiers).Nodup ∧ ∀ p ∈ st.notifiers, p.2 = 1

/-! ### Rule inspection (`getLocalRules`, `getShardedRules`) -/

/-- Model of `rules.AlertDesc` as built by `getLocalRules` from an active alert.  The
float `Value` field is omitted (not compared by any property here). -/
structure AlertDesc where
  state : String
  labels : List (String × String)
  annotations : List (String × String)
  activeAt : Nat
  firedAt : Nat
  resolvedAt : Nat
  lastSentAt : Nat
  validUntil : Nat
  deriving DecidableEq

/-- Model of `rules.RuleDesc`; fields not set for a given rule kind keep their zero
values, exactly as the Go struct literal leaves them. -/
structure RuleDesc where
  record : String := ""
  alert : String := ""
  expr : String := ""
  forDuration : Nat := 0
  labels : List (String × String) := []
  annotations : List (String × String) := []
  state : String := ""
  health : String := ""
  lastError : String := ""
  alerts : List AlertDesc := []
  evaluationTimestamp : Nat := 0
  evaluationDuration : Nat := 0
  deriving DecidableEq

/-- Model of `rules.RuleGroupDesc` (`ns` is the Go `Namespace` field). -/
structure RuleGroupDesc where
  name : String
  ns : String
  interval : Nat
  user : String
  evaluationTimestamp : Nat
  evaluationDuration : Nat
  rules : List RuleDesc := []
  deriving DecidableEq

/-- A running `promRules.AlertingRule` restricted to the getters
`getLocalRules` reads. -/
structure AlertingRuleS where
  name : String
  expr : String
  dur : Nat
  labels : List (String × String)
  annotations : List (String × String)
  state : String
  health : String
  lastErr : Option String
  activeAlerts : List Alert
  evaluationTimestamp : Nat
  evaluationDuration : Nat
  deriving DecidableEq

/-- A running `promRules.RecordingRule` restricted to the getters
`getLocalRules` reads. -/
structure RecordingRuleS where
  name : String
  expr : String
  labels : List (String × String)
  health : String
  lastErr : Option String
  evaluationTimestamp : Nat
  evaluationDuration : Nat
  deriving DecidableEq

/-- A rule inside a running group; `other` stands for any dynamic type that is
neither an alerting nor a recording rule, which the Go type switch rejects. -/
inductive PromRule where
  | alerting (r : AlertingRuleS)
  | recording (r : RecordingRuleS)
  | other (name : String)
  deriving DecidableEq

/-- A running `promRules.Group` restricted to the getters `getLocalRules`
reads (`file` is the on-disk rule file the group was loaded from). -/
structure PromGroup where
  name : String
  file : String
  interval : Nat
  evaluationTimestamp : Nat
  evaluationDuration : Nat
  rules : List PromRule
  deriving DecidableEq

/-- Go `strings.TrimPrefix`. -/
def trimPrefix (pre s : String) : String :=
  if pre.isPrefixOf s then s.drop pre.length else s

/-- The `lastError` string for a rule: empty when the rule has no last error. -/
def lastErrorStr : Option String → String
  | some e => e
  | none => ""

/-- Conversion of one active alert to its description. -/
def alertToDesc (a : Alert) : AlertDesc :=
  { state := a.state.toStr
    labels := a.labels
    annotations := a.annotations
    activeAt := a.activeAt
    firedAt := a.firedAt
    resolvedAt := a.resolvedAt
    lastSentAt := a.lastSentAt
    validUntil := a.validUntil }

/-- The type switch of `getLocalRules` on one rule: alerting and recording
rules convert; any other dynamic type makes the whole call fail. -/
def ruleToDesc : PromRule → Except String RuleDesc
  | .alerting r =>
    .ok { expr := r.expr
          alert := r.name
          forDuration := r.dur
          labels := r.labels
          annotations := r.annotations
          state := r.state
          health := r.health
          lastError := lastErrorStr r.lastErr
          alerts := r.activeAlerts.map alertToDesc
          evaluationTimestamp := r.evaluationTimestamp
          evaluationDuration := r.evaluationDuration }
  | .recording r =>
    .ok { record := r.name
          expr := r.expr
          labels := r.labels
          health := r.health
          lastError := lastErrorStr r.lastErr
          evaluationTimestamp := r.evaluationTimestamp
          evaluationDuration := r.evaluationDuration }
  | .other n => .error ("failed to assert type of rule " ++ n)

/-- Convert the rules of one group, failing on the first unknown rule type. -/
def rulesToDescs : List PromRule → Except String (List RuleDesc)
  | [] => .ok []
  | r :: rest =>
    match ruleToDesc r with
    | .error e => .error e
    | .ok d =>
      match rulesToDescs rest with
      | .error e => .error e
      | .ok ds => .ok (d :: ds)

/-- Convert one running group: the namespace is the group's file path with the
`<rulePath>/<userID>/` prefix stripped. -/
def groupToDesc (pre : String) (userID : TenantID) (g : PromGroup) :
    Except String RuleGroupDesc :=
  match rulesToDescs g.rules with
  | .error e => .error e
  | .ok ds =>
    .ok { name := g.name
          ns := trimPrefix pre g.file
          interval := g.interval
          user := userID
          evaluationTimestamp := g.evaluationTimestamp
          evaluationDuration := g.evaluationDuration
          rules := ds }

/-- Convert a list of running groups, failing on the first bad rule. -/
def groupsToDescs (pre : String) (userID : TenantID) :
    List PromGroup → Except String (List RuleGroupDesc)
  | [] => .ok []
  | g :: rest =>
    match groupToDesc pre userID g with
    | .error e => .error e
    | .ok d =>
      match groupsToDescs pre userID rest with
      | .error e => .error e
      | .ok ds => .ok (d :: ds)

/-- Go `getLocalRules`: snapshot of this replica's running rules for one tenant.
`managers` is the registry's manager snapshot (`mngr.RuleGroups()` per
tenant); an unregistered tenant contributes the empty group list. -/
def getLocalRules (rulePath : String)
    (managers : List (TenantID × List PromGroup)) (userID : TenantID) :
    Except String (List RuleGroupDesc) :=
  let groups :=
    match alook userID managers with
    | some gs => gs
    | none => []
  let pre := rulePath ++ "/" ++ userID ++ "/"
  groupsToDescs pre userID groups

/-- A gRPC context: the in-process org ID and the outgoing-metadata org
header (`user.InjectIntoGRPCRequest` copies the former into the latter). -/
structure GrpcCtx where
  orgID : Option String
  mdOrg : Option String
  deriving DecidableEq

/-- Go `user.InjectIntoGRPCRequest`: fails when the context carries no org ID,
otherwise copies it into the outgoing metadata. -/
def injectIntoGRPCRequest (ctx : GrpcCtx) : Except String GrpcCtx :=
  match ctx.orgID with
  | none => .error "no org id in context"
  | some id => .ok { ctx with mdOrg := some id }

/-- Oracles for `getShardedRules`: the ring enumeration, per-address dialing
and the per-replica `Rules` RPC result. -/
structure ShardEnv where
  ringGetAll : Except String (List String)
  dial : String → Except String Unit
  rulesRPC : String → Except String (List RuleGroupDesc)

/-- The per-replica loop of `getShardedRules`: dial each address, issue the
`Rules` RPC with the injected context, and append the returned groups; the
first failure aborts the whole aggregation.  The second component records
every RPC actually issued, with the context it was issued under. -/
def rulesFanout (env : ShardEnv) (ctx : GrpcCtx) :
    List String →
      Except String (List RuleGroupDesc) × List (String × GrpcCtx)
  | [] => (.ok [], [])
  | addr :: rest =>
    match env.dial addr with
    | .error e => (.error e, [])
    | .ok _ =>
      match env.rulesRPC addr with
      | .error e =>
        (.error ("unable to retrieve rules from other rulers, " ++ e),
         [(addr, ctx)])
      | .ok grps =>
        let r := rulesFanout env ctx rest
        (match r.1 with
         | .error e => .error e
         | .ok more => .ok (grps ++ more),
         (addr, ctx) :: r.2)

/-- Go `getShardedRules`: enumerate the ring, inject the caller's tenant identity
into the outgoing context, then fan out to every replica. -/
def getShardedRules (env : ShardEnv) (ctx : GrpcCtx) :
    Except String (List RuleGroupDesc) × List (String × GrpcCtx) :=
  match env.ringGetAll with
  | .error e => (.error e, [])
  | .ok addrs =>
    match injectIntoGRPCRequest ctx with
    | .error e =>
      (.error ("unable to inject user ID into grpc request, " ++ e), [])
    | .ok ctx2 => rulesFanout env ctx2 addrs

/-- The groups a successful per-replica RPC would return (used to state what
the aggregation concatenates). -/
def rpcGroups (env : ShardEnv) (addr : String) : List RuleGroupDesc :=
  match env.rulesRPC addr with
  | .ok gs => gs
  | .error _ => []

/-! ### Concrete example environments and inputs -/

/-- An alert that is neither pending nor firing: it has gone back to inactive
after resolving. -/
def alertInactive : Alert :=
  { state := .inactive, labels := [], annotations := [], activeAt := 1
    firedAt := 5, resolvedAt := 7, lastSentAt := 0, validUntil := 0 }

/-- A tick environment whose store poll fails. -/
def envStoreDown : Env :=
  { enableSharding := false, selfAddr := "self"
    storeResult := .error "store down"
    ringGet := fun _ => .error "unused"
    mapRules := fun _ _ => .error "unused"
    applyConfigOk := true
    updateResult := fun _ _ => .ok () }

/-- A three-replica shard environment where one peer RPC fails. -/
def shardEnv0 : ShardEnv :=
  { ringGetAll := .ok ["p1", "p2", "p3"]
    dial := fun _ => .ok ()
    rulesRPC := fun a => if a = "p2" then .error "rpc fail" else .ok [] }

/-- The caller's context carrying tenant identity. -/
def ctx0 : GrpcCtx := { orgID := some "tenant-1", mdOrg := none }

/-- Per-user effects that `syncManager` may emit for its user. -/
def userEff (user : TenantID) (e : Effect) : Prop :=
  e = .mapRules user ∨ e = .syncErr user ∨ e = .incConfigUpdates user ∨
  e = .createManager user ∨ e = .runManager user ∨
  (∃ fs, e = .updateManager user fs) ∨ e = .applyNotifierConfig user

/-- Example group for tenant `u` used by the ring-failure examples. -/
def gu : RuleGroup := { user := "u", ns := "ns", name := "g3" }

/-- A sharded tick whose ring always fails. -/
def env3 : Env :=
  { enableSharding := true, selfAddr := "self"
    storeResult := .ok [("u", [gu])]
    ringGet := fun _ => .error "ring down"
    mapRules := fun _ _ => .ok (true, ["f"])
    applyConfigOk := true
    updateResult := fun _ _ => .ok () }

/-- A state with a stale registered tenant `w`. -/
def stW : RulerState := ⟨[("w", ["wf"])], [], 0, []⟩

/-- Same failing-ring environment as `env3`, for the tenant-drop example. -/
def env4 : Env :=
  { enableSharding := true, selfAddr := "self"
    storeResult := .ok [("u", [gu])]
    ringGet := fun _ => .error "ring down"
    mapRules := fun _ _ => .ok (true, ["f"])
    applyConfigOk := true
    updateResult := fun _ _ => .ok () }

/-- A state with tenant `t` registered (evaluator and notifier). -/
def st4 : RulerState := ⟨[("t", ["tf"])], [("t", 1)], 0, []⟩

/-- A healthy non-sharded tick returning only tenant `u`. -/
def env5 : Env :=
  { enableSharding := false, selfAddr := "self"
    storeResult := .ok [("u", [gu])]
    ringGet := fun _ => .error "unused"
    mapRules := fun _ _ => .ok (false, [])
    applyConfigOk := true
    updateResult := fun _ _ => .ok () }

/-- Two distinct groups used by the concrete sharding examples. -/
def grpA : RuleGroup := { user := "a", ns := "ns", name := "g1" }

/-- Second example group, owned (in the examples) by nobody reachable. -/
def grpB : RuleGroup := { user := "b", ns := "ns", name := "g2" }

/-- A sharded environment whose ring answers only for `grpA`'s key. -/
def envShard : Env :=
  { enableSharding := true, selfAddr := "self"
    storeResult := .ok [("a", [grpA]), ("b", [grpB])]
    ringGet := fun k => if k = shardKey grpA then .ok ("self", []) else .error "ring timeout"
    mapRules := fun _ _ => .ok (true, ["f1"])
    applyConfigOk := true
    updateResult := fun _ _ => .ok () }

/-- A state with a notifier already registered for tenant `x`. -/
def st5 : RulerState := ⟨[], [("x", 1)], 0, []⟩

/-- A quiet environment whose notifier config applies successfully. -/
def env6 : Env :=
  { enableSharding := false, selfAddr := "self"
    storeResult := .ok []
    ringGet := fun _ => .error "unused"
    mapRules := fun _ _ => .ok (false, [])
    applyConfigOk := true
    updateResult := fun _ _ => .ok () }

/-- An environment whose mapper reports a change but whose manager `Update`
always fails. -/
def env10 : Env :=
  { enableSharding := false, selfAddr := "self"
    storeResult := .ok []
    ringGet := fun _ => .error "unused"
    mapRules := fun _ _ => .ok (true, ["f"])
    applyConfigOk := true
    updateResult := fun _ _ => .error "update failed" }

/-! ### Helper lemmas -/

theorem isErr_true_iff {ε α : Type} (x : Except ε α) :
    isErr x = true ↔ ∃ e, x = .error e := by
  cases x <;> simp [isErr]

theorem isErr_false_iff {ε α : Type} (x : Except ε α) :
    isErr x = false ↔ ∃ v, x = .ok v := by
  cases x <;> simp [isErr]

theorem rulesFanout_calls_ctx (env : ShardEnv) (ctx : GrpcCtx) :
    ∀ addrs : List String, ∀ p ∈ (rulesFanout env ctx addrs).2, p.2 = ctx := by
  intro addrs
  induction addrs with
  | nil => intro p hp; simp [rulesFanout] at hp
  | cons a rest ih =>
    intro p hp
    simp only [rulesFanout] at hp
    cases hd : env.dial a with
    | error e => rw [hd] at hp; simp at hp
    | ok _ =>
      rw [hd] at hp
      cases hr : env.rulesRPC a with
      | error e => rw [hr] at hp; simp at hp; simp [hp]
      | ok grps =>
        rw [hr] at hp
        simp only [List.mem_cons] at hp
        rcases hp with hp | hp
        · simp [hp]
        · exact ih p hp

theorem rulesFanout_err (env : ShardEnv) (ctx : GrpcCtx) :
    ∀ addrs : List String,
      (∃ a ∈ addrs, isErr (env.dial a) = true ∨ isErr (env.rulesRPC a) = true) →
      isErr (rulesFanout env ctx addrs).1 = true := by
  intro addrs
  induction addrs with
  | nil => rintro ⟨a, ha, _⟩; simp at ha
  | cons a rest ih =>
    rintro ⟨b, hb, hberr⟩
    simp only [rulesFanout]
    cases hd : env.dial a with
    | error e => simp [isErr]
    | ok _ =>
      cases hr : env.rulesRPC a with
      | error e => simp [isErr]
      | ok grps =>
        simp only [List.mem_cons] at hb
        rcases hb with rfl | hb
        · rcases hberr with hberr | hberr
          · rw [isErr_true_iff] at hberr
            rcases hberr with ⟨e, he⟩
            rw [hd] at he
            exact absurd he (by simp)
          · rw [isErr_true_iff] at hberr
            rcases hberr with ⟨e, he⟩
            rw [hr] at he
            exact absurd he (by simp)
        · have := ih ⟨b, hb, hberr⟩
          rw [isErr_true_iff] at this
          rcases this with ⟨e, he⟩
          rw [he]
          simp [isErr]

theorem rulesFanout_ok (env : ShardEnv) (ctx : GrpcCtx) :
    ∀ addrs : List String,
      (∀ a ∈ addrs, isErr (env.dial a) = false ∧ isErr (env.rulesRPC a) = false) →
      (rulesFanout env ctx addrs).1 = .ok (addrs.flatMap (rpcGroups env)) := by
  intro addrs
  induction addrs with
  | nil => intro _; simp [rulesFanout]
  | cons a rest ih =>
    intro hok
    have ha := hok a (by simp)
    rcases (isErr_false_iff _).mp ha.1 with ⟨u, hu⟩
    rcases (isErr_false_iff _).mp ha.2 with ⟨gs, hgs⟩
    have hrest := ih fun b hb => hok b (by simp [hb])
    simp only [rulesFanout, hu, hgs, hrest]
    simp [rpcGroups, hgs]

theorem alook_none_iff {α : Type} (u : TenantID) (m : List (TenantID × α)) :
    alook u m = none ↔ u ∉ akeys m := by
  induction m with
  | nil => simp [alook, akeys]
  | cons p rest ih =>
    obtain ⟨k, v⟩ := p
    show (if k = u then some v else alook u rest) = none ↔ u ∉ akeys ((k, v) :: rest)
    have hkeys : akeys ((k, v) :: rest) = k :: akeys rest := rfl
    rw [hkeys]
    by_cases hk : k = u
    · subst hk
      simp
    · rw [if_neg hk, ih, List.mem_cons]
      constructor
      · intro h hmem
        rcases hmem with h1 | h2
        · exact hk h1.symm
        · exact h h2
      · intro h hmem
        exact h (Or.inr hmem)

theorem alook_isSome_iff {α : Type} (u : TenantID) (m : List (TenantID × α)) :
    (∃ v, alook u m = some v) ↔ u ∈ akeys m := by
  rcases h : alook u m with _ | v
  · rw [alook_none_iff] at h
    simp [h]
  · have : u ∈ akeys m := by
      by_contra hu
      rw [← alook_none_iff] at hu
      rw [h] at hu
      cases hu
    simp [this]

theorem alook_aset_ne {α : Type} (t u : TenantID) (v : α)
    (m : List (TenantID × α)) (h : t ≠ u) :
    alook t (aset u v m) = alook t m := by
  induction m with
  | nil => rfl
  | cons p rest ih =>
    obtain ⟨k, w⟩ := p
    show alook t (if k = u then (u, v) :: aset u v rest else (k, w) :: aset u v rest) =
      alook t ((k, w) :: rest)
    by_cases hk : k = u
    · rw [if_pos hk]
      show (if u = t then some v else alook t (aset u v rest)) =
        if k = t then some w else alook t rest
      have hut : ¬(u = t) := fun hh => h hh.symm
      have hkt : ¬(k = t) := fun hh => hut (by rw [← hk]; exact hh)
      rw [if_neg hut, if_neg hkt, ih]
    · rw [if_neg hk]
      show (if k = t then some w else alook t (aset u v rest)) =
        if k = t then some w else alook t rest
      by_cases hkt : k = t
      · rw [if_pos hkt, if_pos hkt]
      · rw [if_neg hkt, if_neg hkt, ih]

theorem alook_aset_self {α : Type} (u : TenantID) (v : α)
    (m : List (TenantID × α)) :
    alook u (aset u v m) = (alook u m).map fun _ => v := by
  induction m with
  | nil => rfl
  | cons p rest ih =>
    obtain ⟨k, w⟩ := p
    show alook u (if k = u then (u, v) :: aset u v rest else (k, w) :: aset u v rest) =
      Option.map (fun _ => v) (alook u ((k, w) :: rest))
    by_cases hk : k = u
    · rw [if_pos hk]
      show (if u = u then some v else alook u (aset u v rest)) =
        Option.map (fun _ => v) (if k = u then some w else alook u rest)
      rw [if_pos rfl, if_pos hk]
      rfl
    · rw [if_neg hk]
      show (if k = u then some w else alook u (aset u v rest)) =
        Option.map (fun _ => v) (if k = u then some w else alook u rest)
      rw [if_neg hk, if_neg hk, ih]

theorem akeys_aset {α : Type} (u : TenantID) (v : α) (m : List (TenantID × α)) :
    akeys (aset u v m) = akeys m := by
  induction m with
  | nil => rfl
  | cons p rest ih =>
    obtain ⟨k, w⟩ := p
    show akeys (if k = u then (u, v) :: aset u v rest else (k, w) :: aset u v rest) =
      akeys ((k, w) :: rest)
    by_cases hk : k = u
    · rw [if_pos hk]
      show u :: akeys (aset u v rest) = k :: akeys rest
      rw [ih, hk]
    · rw [if_neg hk]
      show k :: akeys (aset u v rest) = k :: akeys rest
      rw [ih]

theorem alook_append {α : Type} (u : TenantID) (m₁ m₂ : List (TenantID × α)) :
    alook u (m₁ ++ m₂) =
      match alook u m₁ with
      | some v => some v
      | none => alook u m₂ := by
  induction m₁ with
  | nil => simp [alook]
  | cons p rest ih =>
    obtain ⟨k, w⟩ := p
    by_cases hk : k = u
    · simp [alook, hk]
    · simp [alook, hk, ih]

theorem alookC_abump_self (u : TenantID) (m : List (TenantID × Nat)) :
    alookC u (abump u m) = alookC u m + 1 := by
  unfold alookC
  induction m with
  | nil =>
    show (alook u [(u, 1)]).getD 0 = (alook u ([] : List (TenantID × Nat))).getD 0 + 1
    show (if u = u then some 1 else none).getD 0 = (none : Option Nat).getD 0 + 1
    rw [if_pos rfl]
    rfl
  | cons p rest ih =>
    obtain ⟨k, v⟩ := p
    show (alook u (if k = u then (k, v + 1) :: rest else (k, v) :: abump u rest)).getD 0 =
      (if k = u then some v else alook u rest).getD 0 + 1
    by_cases hk : k = u
    · rw [if_pos hk]
      show (if k = u then some (v + 1) else alook u rest).getD 0 =
        (if k = u then some v else alook u rest).getD 0 + 1
      rw [if_pos hk, if_pos hk]
      rfl
    · rw [if_neg hk]
      show (if k = u then some v else alook u (abump u rest)).getD 0 =
        (if k = u then some v else alook u rest).getD 0 + 1
      rw [if_neg hk, if_neg hk]
      exact ih

theorem alookC_abump_ne (t u : TenantID) (m : List (TenantID × Nat))
    (h : t ≠ u) :
    alookC t (abump u m) = alookC t m := by
  unfold alookC
  induction m with
  | nil =>
    show (if u = t then some 1 else none).getD 0 = (none : Option Nat).getD 0
    rw [if_neg fun hh => h hh.symm]
  | cons p rest ih =>
    obtain ⟨k, v⟩ := p
    show (alook t (if k = u then (k, v + 1) :: rest else (k, v) :: abump u rest)).getD 0 =
      (if k = t then some v else alook t rest).getD 0
    by_cases hk : k = u
    · rw [if_pos hk]
      have hkt : ¬(k = t) := fun hh => h (by rw [← hh]; exact hk)
      show (if k = t then some (v + 1) else alook t rest).getD 0 =
        (if k = t then some v else alook t rest).getD 0
      rw [if_neg hkt, if_neg hkt]
    · rw [if_neg hk]
      show (if k = t then some v else alook t (abump u rest)).getD 0 =
        (if k = t then some v else alook t rest).getD 0
      by_cases hkt : k = t
      · rw [if_pos hkt, if_pos hkt]
      · rw [if_neg hkt, if_neg hkt, ih]

theorem memb_iff (u : TenantID) (l : List TenantID) :
    memb u l = true ↔ u ∈ l := by
  unfold memb
  rw [List.any_eq_true]
  constructor
  · rintro ⟨x, hx, hxu⟩
    have hxu2 : x = u := of_decide_eq_true hxu
    exact hxu2 ▸ hx
  · intro h
    exact ⟨u, h, by simp⟩

theorem alook_filter_keep {α : Type} (t : TenantID) (ks : List TenantID)
    (m : List (TenantID × α)) (h : memb t ks = true) :
    alook t (m.filter fun p => memb p.1 ks) = alook t m := by
  induction m with
  | nil => rfl
  | cons p rest ih =>
    obtain ⟨k, v⟩ := p
    rw [List.filter_cons]
    by_cases hm : memb (k, v).1 ks = true
    · rw [if_pos hm]
      show (if k = t then some v else alook t (rest.filter fun p => memb p.1 ks)) =
        if k = t then some v else alook t rest
      by_cases hk : k = t
      · rw [if_pos hk, if_pos hk]
      · rw [if_neg hk, if_neg hk, ih]
    · rw [if_neg hm]
      have hk : ¬(k = t) := fun hh => hm (by show memb k ks = true; rw [hh]; exact h)
      show alook t (rest.filter fun p => memb p.1 ks) =
        if k = t then some v else alook t rest
      rw [if_neg hk, ih]

theorem alook_filter_drop {α : Type} (t : TenantID) (ks : List TenantID)
    (m : List (TenantID × α)) (h : memb t ks = false) :
    alook t (m.filter fun p => memb p.1 ks) = none := by
  induction m with
  | nil => rfl
  | cons p rest ih =>
    obtain ⟨k, v⟩ := p
    rw [List.filter_cons]
    by_cases hm : memb (k, v).1 ks = true
    · rw [if_pos hm]
      have hk : ¬(k = t) := by
        intro hh
        have hm2 : memb t ks = true := by rw [← hh]; exact hm
        rw [hm2] at h
        exact Bool.noConfusion h
      show (if k = t then some v else alook t (rest.filter fun p => memb p.1 ks)) = none
      rw [if_neg hk, ih]
    · rw [if_neg hm]
      exact ih

/-! ### C2: alert filtering in `sendAlerts` -/

/-- C2 counterexample: the notify function drops only `Pending` alerts, so an
`Inactive` (resolved) alert is handed to the notifier even though it is not in
state `Firing`; the sent set is therefore not "exactly the Firing set". -/
theorem sendAlerts_sends_inactive_cex :
    alertInactive.state ≠ AlertState.firing ∧
    alertInactive.state ≠ AlertState.pending ∧
    sendAlertsNotify "http://e" "up" [alertInactive] =
      some [{ startsAt := 5, endsAt := 7, labels := [], annotations := []
              generatorURL := "http://e/graph?g0.expr=up&g0.tab=1" }] := by
  decide

/-- C2 (amended): for a non-empty input, the set handed to the notifier is
exactly the non-`Pending` alerts (so `Firing` and `Inactive` both pass), each
with `startsAt = firedAt`, `endsAt = resolvedAt` (the zero instant when the
alert is unresolved), and `GeneratorURL = externalURL ++ tableLink(expr)`. -/
theorem sendAlerts_sends_exactly_nonpending (url expr : String)
    (alerts : List Alert) (h : alerts ≠ []) :
    sendAlertsNotify url expr alerts =
      some ((alerts.filter fun a => decide (a.state ≠ AlertState.pending)).map
        fun a =>
          { startsAt := a.firedAt
            endsAt := a.resolvedAt
            labels := a.labels
            annotations := a.annotations
            generatorURL := url ++ tableLinkForExpression expr }) := by
  have hlen : alerts.length > 0 := List.length_pos.mpr h
  have core : ∀ l : List Alert,
      (l.filterMap fun alert =>
        if alert.state = AlertState.pending then none
        else some
          ({ startsAt := alert.firedAt
             endsAt := if alert.resolvedAt = 0 then 0 else alert.resolvedAt
             labels := alert.labels
             annotations := alert.annotations
             generatorURL := url ++ tableLinkForExpression expr } : NotifierAlert)) =
      (l.filter fun a => decide (a.state ≠ AlertState.pending)).map
        fun a =>
          { startsAt := a.firedAt
            endsAt := a.resolvedAt
            labels := a.labels
            annotations := a.annotations
            generatorURL := url ++ tableLinkForExpression expr } := by
    intro l
    induction l with
    | nil => rfl
    | cons a rest ih =>
      by_cases hp : a.state = AlertState.pending
      · simpa [List.filterMap_cons, List.filter_cons, hp] using ih
      · have hends : (if a.resolvedAt = 0 then 0 else a.resolvedAt) = a.resolvedAt := by
          by_cases hz : a.resolvedAt = 0 <;> simp [hz]
        simp [List.filterMap_cons, List.filter_cons, hp, hends, ih]
  unfold sendAlertsNotify
  rw [if_pos hlen, core alerts]

/-- C2 witness: the amended theorem applied at a one-firing-alert input. -/
theorem sendAlerts_sends_exactly_nonpending_witness :
    ([alertInactive] : List Alert) ≠ [] ∧
    sendAlertsNotify "http://e" "up" [alertInactive] =
      some ((([alertInactive] : List Alert).filter
          fun a => decide (a.state ≠ AlertState.pending)).map
        fun a =>
          { startsAt := a.firedAt
            endsAt := a.resolvedAt
            labels := a.labels
            annotations := a.annotations
            generatorURL := "http://e" ++ tableLinkForExpression "up" }) :=
  ⟨by decide, sendAlerts_sends_exactly_nonpending "http://e" "up" [alertInactive]
    (by decide)⟩

/-! ### C9: local inspection of an unknown tenant -/

/-- C9: a tenant with no registered evaluator yields a successful, empty
(zero-length) list of group descriptions from `getLocalRules`, not an error;
the caller cannot distinguish an unknown tenant from one with no groups. -/
theorem getLocalRules_unknown_tenant_ok (rulePath : String)
    (managers : List (TenantID × List PromGroup)) (userID : TenantID)
    (h : alook userID managers = none) :
    getLocalRules rulePath managers userID = .ok [] := by
  unfold getLocalRules
  rw [h]
  rfl

/-- C9 witness: a registry that only knows tenant `zz`, asked about `joe`. -/
theorem getLocalRules_unknown_tenant_ok_witness :
    alook "joe" [("zz", ([] : List PromGroup))] = none ∧
    getLocalRules "/rules" [("zz", [])] "joe" = .ok [] :=
  ⟨by decide, getLocalRules_unknown_tenant_ok "/rules" [("zz", [])] "joe" (by decide)⟩

/-! ### C6: store poll failure leaves the tick a no-op -/

/-- C6: when the store poll fails, `loadRules` returns at once with the state
(evaluator registry, notifier map, counters) untouched and an empty effect
trace (so no files were mapped and no manager was touched); `loadRules` has no
error output at all, and the run loop simply proceeds to the next tick on the
unchanged state. -/
theorem loadRules_store_error_no_change (env : Env) (st : RulerState)
    (e : String) (h : env.storeResult = .error e) (rest : List Env) :
    loadRules env st = (st, [], none) ∧
    runTicks st (env :: rest) = runTicks st rest := by
  have h1 : loadRules env st = (st, [], none) := by
    unfold loadRules
    rw [h]
  refine ⟨h1, ?_⟩
  show runTicks (loadRules env st).1 rest = runTicks st rest
  rw [h1]

/-- C6 witness: the theorem applied at the failing store environment. -/
theorem loadRules_store_error_no_change_witness :
    envStoreDown.storeResult = .error "store down" ∧
    loadRules envStoreDown initState = (initState, [], none) ∧
    runTicks initState [envStoreDown] = runTicks initState [] :=
  ⟨rfl,
   (loadRules_store_error_no_change envStoreDown initState "store down" rfl []).1,
   (loadRules_store_error_no_change envStoreDown initState "store down" rfl []).2⟩

/-! ### C7: sharded rule inspection is fail-closed and identity-propagating -/

/-- C7: with the caller's tenant identity in the context, `getShardedRules`
issues every per-replica RPC under a context whose outgoing metadata carries
that identity, and the aggregation is fail-closed: a ring-enumeration error,
any connection error, or any per-replica `Rules` RPC error makes the whole
call return an error (no partial result — the only non-error output is the
full concatenation, in ring-enumeration order, of every replica's groups). -/
theorem getShardedRules_fail_closed (env : ShardEnv) (ctx : GrpcCtx)
    (uid : String) (h : ctx.orgID = some uid) :
    (∀ p ∈ (getShardedRules env ctx).2, p.2.mdOrg = some uid) ∧
    (∀ e, env.ringGetAll = .error e → isErr (getShardedRules env ctx).1 = true) ∧
    (∀ addrs, env.ringGetAll = .ok addrs →
      (∃ a ∈ addrs, isErr (env.dial a) = true ∨ isErr (env.rulesRPC a) = true) →
      isErr (getShardedRules env ctx).1 = true) ∧
    (∀ addrs, env.ringGetAll = .ok addrs →
      (∀ a ∈ addrs, isErr (env.dial a) = false ∧ isErr (env.rulesRPC a) = false) →
      (getShardedRules env ctx).1 = .ok (addrs.flatMap (rpcGroups env))) := by
  refine ⟨?_, ?_, ?_, ?_⟩
  · intro p hp
    cases hra : env.ringGetAll with
    | error e => simp [getShardedRules, hra] at hp
    | ok addrs =>
      simp only [getShardedRules, hra, injectIntoGRPCRequest, h] at hp
      have := rulesFanout_calls_ctx env ⟨some uid, some uid⟩ addrs p hp
      rw [this]
  · intro e he
    simp [getShardedRules, he, isErr]
  · intro addrs hra hex
    simp only [getShardedRules, hra, injectIntoGRPCRequest, h]
    exact rulesFanout_err env ⟨some uid, some uid⟩ addrs hex
  · intro addrs hra hok
    simp only [getShardedRules, hra, injectIntoGRPCRequest, h]
    exact rulesFanout_ok env ⟨some uid, some uid⟩ addrs hok

/-- C7 witness: the theorem applied at a concrete shard environment. -/
theorem getShardedRules_fail_closed_witness :
    ctx0.orgID = some "tenant-1" ∧
    ((∀ p ∈ (getShardedRules shardEnv0 ctx0).2, p.2.mdOrg = some "tenant-1") ∧
     (∀ e, shardEnv0.ringGetAll = .error e →
       isErr (getShardedRules shardEnv0 ctx0).1 = true) ∧
     (∀ addrs, shardEnv0.ringGetAll = .ok addrs →
       (∃ a ∈ addrs,
         isErr (shardEnv0.dial a) = true ∨ isErr (shardEnv0.rulesRPC a) = true) →
       isErr (getShardedRules shardEnv0 ctx0).1 = true) ∧
     (∀ addrs, shardEnv0.ringGetAll = .ok addrs →
       (∀ a ∈ addrs,
         isErr (shardEnv0.dial a) = false ∧ isErr (shardEnv0.rulesRPC a) = false) →
       (getShardedRules shardEnv0 ctx0).1 =
         .ok (addrs.flatMap (rpcGroups shardEnv0)))) :=
  ⟨rfl, getShardedRules_fail_closed shardEnv0 ctx0 "tenant-1" rfl⟩

/-! ### Shape lemmas for the sync tick -/

theorem alook_mem {α : Type} (u : TenantID) (v : α) :
    ∀ m : List (TenantID × α), alook u m = some v → (u, v) ∈ m := by
  intro m
  induction m with
  | nil => intro h; cases h
  | cons p rest ih =>
    obtain ⟨k, w⟩ := p
    intro h
    show (u, v) ∈ (k, w) :: rest
    by_cases hk : k = u
    · have : some w = some v := by
        rw [← h]
        show some w = if k = u then some w else alook u rest
        rw [if_pos hk]
      rw [List.mem_cons]
      refine Or.inl ?_
      injection this with hw
      rw [hk, hw]
    · have h2 : alook u rest = some v := by
        rw [← h]
        show alook u rest = if k = u then some w else alook u rest
        rw [if_neg hk]
      exact List.mem_cons.mpr (Or.inr (ih h2))

theorem memb_false_iff (u : TenantID) (l : List TenantID) :
    memb u l = false ↔ u ∉ l := by
  constructor
  · intro h hm
    rw [(memb_iff u l).mpr hm] at h
    exact Bool.noConfusion h
  · intro h
    cases hb : memb u l
    · rfl
    · exact absurd ((memb_iff u l).mp hb) h

theorem akeys_filter_mem {α : Type} (t : TenantID) (ks : List TenantID)
    (m : List (TenantID × α))
    (h : t ∈ akeys (m.filter fun p => memb p.1 ks)) :
    memb t ks = true ∧ t ∈ akeys m := by
  induction m with
  | nil => cases h
  | cons p rest ih =>
    obtain ⟨k, v⟩ := p
    rw [List.filter_cons] at h
    by_cases hm : memb (k, v).1 ks = true
    · rw [if_pos hm] at h
      have hkeys : akeys ((k, v) :: List.filter (fun p => memb p.1 ks) rest) =
          k :: akeys (List.filter (fun p => memb p.1 ks) rest) := rfl
      rw [hkeys, List.mem_cons] at h
      rcases h with rfl | h
      · exact ⟨hm, by show t ∈ t :: akeys rest; simp⟩
      · obtain ⟨h1, h2⟩ := ih h
        exact ⟨h1, by show t ∈ k :: akeys rest; simp [h2]⟩
    · rw [if_neg hm] at h
      obtain ⟨h1, h2⟩ := ih h
      exact ⟨h1, by show t ∈ k :: akeys rest; simp [h2]⟩

theorem userEff_mapRules (user t : TenantID)
    (h : userEff user (Effect.mapRules t)) : t = user := by
  rcases h with h | h | h | h | h | ⟨fs, h⟩ | h <;> simp_all

theorem userEff_not_stop (user t : TenantID)
    (h : userEff user (Effect.stopManager t)) : False := by
  rcases h with h | h | h | h | h | ⟨fs, h⟩ | h <;> simp_all

theorem goc_shape (env : Env) (st : RulerState) (u : TenantID) :
    (getOrCreateNotifier env st u).2.1.userManagers = st.userManagers ∧
    (getOrCreateNotifier env st u).2.1.ringCheckErrors = st.ringCheckErrors ∧
    (getOrCreateNotifier env st u).2.1.configUpdates = st.configUpdates ∧
    ((getOrCreateNotifier env st u).2.1.notifiers = st.notifiers ∨
      ((getOrCreateNotifier env st u).2.1.notifiers = st.notifiers ++ [(u, 1)] ∧
        alook u st.notifiers = none)) ∧
    (∀ e ∈ (getOrCreateNotifier env st u).2.2, e = Effect.applyNotifierConfig u) := by
  rcases hl : alook u st.notifiers with _ | v
  · by_cases hc : env.applyConfigOk
    · refine ⟨?_, ?_, ?_, ?_, ?_⟩ <;> simp [getOrCreateNotifier, hl, hc]
    · refine ⟨?_, ?_, ?_, ?_, ?_⟩ <;> simp [getOrCreateNotifier, hl, hc]
  · refine ⟨?_, ?_, ?_, ?_, ?_⟩ <;> simp [getOrCreateNotifier, hl]

theorem newManager_state (env : Env) (st : RulerState) (u : TenantID) :
    (newManager env st u).2.1 = (getOrCreateNotifier env st u).2.1 := by
  unfold newManager
  rcases h : getOrCreateNotifier env st u with ⟨r, st1, effs⟩
  cases r <;> simp

theorem newManager_effects (env : Env) (st : RulerState) (u : TenantID) :
    ∀ e ∈ (newManager env st u).2.2,
      e = Effect.applyNotifierConfig u ∨ e = Effect.createManager u := by
  have hg := (goc_shape env st u).2.2.2.2
  unfold newManager
  rcases h : getOrCreateNotifier env st u with ⟨r, st1, effs⟩
  rw [h] at hg
  cases r with
  | error e =>
    intro e' he'
    simp only at he'
    exact Or.inl (hg e' he')
  | ok v =>
    intro e' he'
    simp only [List.mem_append] at he'
    rcases he' with he' | he'
    · exact Or.inl (hg e' he')
    · simp at he'
      exact Or.inr he'

theorem alook_append_ne {α : Type} (t u : TenantID) (v : α)
    (m : List (TenantID × α)) (h : t ≠ u) :
    alook t (m ++ [(u, v)]) = alook t m := by
  rw [alook_append]
  cases hx : alook t m
  · show alook t [(u, v)] = none
    show (if u = t then some v else none) = none
    rw [if_neg fun hh => h hh.symm]
  · rfl

theorem akeys_append {α : Type} (m₁ m₂ : List (TenantID × α)) :
    akeys (m₁ ++ m₂) = akeys m₁ ++ akeys m₂ := by
  unfold akeys
  rw [List.map_append]

theorem uf_map (user : TenantID) : userEff user (Effect.mapRules user) :=
  Or.inl rfl

theorem uf_sync (user : TenantID) : userEff user (Effect.syncErr user) :=
  Or.inr (Or.inl rfl)

theorem uf_inc (user : TenantID) : userEff user (Effect.incConfigUpdates user) :=
  Or.inr (Or.inr (Or.inl rfl))

theorem uf_create (user : TenantID) : userEff user (Effect.createManager user) :=
  Or.inr (Or.inr (Or.inr (Or.inl rfl)))

theorem uf_run (user : TenantID) : userEff user (Effect.runManager user) :=
  Or.inr (Or.inr (Or.inr (Or.inr (Or.inl rfl))))

theorem uf_update (user : TenantID) (fs : List String) :
    userEff user (Effect.updateManager user fs) :=
  Or.inr (Or.inr (Or.inr (Or.inr (Or.inr (Or.inl ⟨fs, rfl⟩)))))

theorem uf_apply (user : TenantID) : userEff user (Effect.applyNotifierConfig user) :=
  Or.inr (Or.inr (Or.inr (Or.inr (Or.inr (Or.inr rfl)))))

theorem fm_append {alpha : Type} {P : alpha → Prop} {l1 l2 : List alpha}
    (h1 : ∀ e, e ∈ l1 → P e) (h2 : ∀ e, e ∈ l2 → P e) :
    ∀ e, e ∈ l1 ++ l2 → P e :=
  fun e he => (List.mem_append.mp he).elim (h1 e) (h2 e)

theorem fm_cons {alpha : Type} {P : alpha → Prop} {a : alpha} {l : List alpha}
    (h : P a) (hl : ∀ e, e ∈ l → P e) : ∀ e, e ∈ a :: l → P e :=
  fun e he => (List.mem_cons.mp he).elim (fun hh => hh ▸ h) (hl e)

theorem fm_nil {alpha : Type} {P : alpha → Prop} :
    ∀ e, e ∈ ([] : List alpha) → P e :=
  fun e he => absurd he (List.not_mem_nil e)

/-- Everything `syncManager` does is confined to its user: the ring-error
counter is untouched, other tenants' registry, notifier and counter entries
are untouched, any new registry key is the user itself, the notifier map is
either unchanged or extended by a fresh once-configured entry for the user,
and every emitted effect belongs to the user. -/
theorem syncManager_shape (env : Env) (st : RulerState) (user : TenantID)
    (groups : List RuleGroup) :
    (syncManager env st user groups).1.ringCheckErrors = st.ringCheckErrors ∧
    (∀ t, t ≠ user →
      alook t (syncManager env st user groups).1.userManagers =
        alook t st.userManagers) ∧
    (∀ t, t ≠ user →
      alook t (syncManager env st user groups).1.notifiers =
        alook t st.notifiers) ∧
    (∀ t, t ∈ akeys (syncManager env st user groups).1.userManagers →
      t = user ∨ t ∈ akeys st.userManagers) ∧
    ((syncManager env st user groups).1.notifiers = st.notifiers ∨
      ((syncManager env st user groups).1.notifiers = st.notifiers ++ [(user, 1)] ∧
        alook user st.notifiers = none)) ∧
    (∀ e, e ∈ (syncManager env st user groups).2 → userEff user e) := by
  rcases hm : env.mapRules user groups with e | ⟨update, files⟩
  · have hsm : syncManager env st user groups =
        (st, [Effect.mapRules user, Effect.syncErr user]) := by
      simp only [syncManager, hm]
    rw [hsm]
    exact ⟨rfl, fun t ht => rfl, fun t ht => rfl, fun t ht => Or.inr ht,
      Or.inl rfl,
      fm_cons (uf_map user) (fm_cons (uf_sync user) fm_nil)⟩
  · cases update with
    | false =>
      have hsm : syncManager env st user groups = (st, [Effect.mapRules user]) := by
        simp only [syncManager, hm, Bool.false_eq_true, if_false]
      rw [hsm]
      exact ⟨rfl, fun t ht => rfl, fun t ht => rfl, fun t ht => Or.inr ht,
        Or.inl rfl, fm_cons (uf_map user) fm_nil⟩
    | true =>
      rcases hl : alook user st.userManagers with _ | fs
      · -- no manager registered yet: newManager path
        rcases hnm : newManager env
            { st with configUpdates := abump user st.configUpdates } user
          with ⟨r, st2, effs⟩
        have hst2 : st2 =
            (getOrCreateNotifier env
              { st with configUpdates := abump user st.configUpdates } user).2.1 := by
          have h2 := newManager_state env
            { st with configUpdates := abump user st.configUpdates } user
          rw [hnm] at h2
          exact h2
        obtain ⟨hum2, hring2, hcu2, hnt2, _⟩ := goc_shape env
          { st with configUpdates := abump user st.configUpdates } user
        rw [← hst2] at hum2 hring2 hcu2 hnt2
        have heffsU : ∀ e2, e2 ∈ effs → userEff user e2 := by
          have h3 := newManager_effects env
            { st with configUpdates := abump user st.configUpdates } user
          rw [hnm] at h3
          intro e2 he2
          rcases h3 e2 he2 with rfl | rfl
          · exact uf_apply user
          · exact uf_create user
        have hntOr : st2.notifiers = st.notifiers ∨
            (st2.notifiers = st.notifiers ++ [(user, 1)] ∧
              alook user st.notifiers = none) := hnt2
        have hntLook : ∀ t, t ≠ user →
            alook t st2.notifiers = alook t st.notifiers := by
          intro t ht
          rcases hntOr with hsame | ⟨happ, hnone⟩
          · rw [hsame]
          · rw [happ]
            exact alook_append_ne t user 1 st.notifiers ht
        cases r with
        | error e =>
          have hsm : syncManager env st user groups =
              (st2, [Effect.mapRules user, Effect.incConfigUpdates user] ++
                effs ++ [Effect.syncErr user]) := by
            simp only [syncManager, hm, eq_self_iff_true, if_true, hl, hnm]
          rw [hsm]
          refine ⟨hring2, ?_, hntLook, ?_, hntOr, ?_⟩
          · intro t ht
            rw [hum2]
          · intro t ht
            rw [hum2] at ht
            exact Or.inr ht
          · exact fm_append (fm_append
              (fm_cons (uf_map user) (fm_cons (uf_inc user) fm_nil)) heffsU)
              (fm_cons (uf_sync user) fm_nil)
        | ok v =>
          rcases hu : env.updateResult user files with e | uv
          · have hsm : syncManager env st user groups =
                ({ st2 with userManagers := st2.userManagers ++ [(user, [])] },
                 [Effect.mapRules user, Effect.incConfigUpdates user] ++ effs ++
                   [Effect.runManager user] ++
                   [Effect.updateManager user files, Effect.syncErr user]) := by
              simp only [syncManager, hm, eq_self_iff_true, if_true, hl, hnm, hu]
            rw [hsm]
            refine ⟨hring2, ?_, hntLook, ?_, hntOr, ?_⟩
            · intro t ht
              show alook t (st2.userManagers ++ [(user, [])]) =
                alook t st.userManagers
              rw [alook_append_ne t user [] st2.userManagers ht, hum2]
            · intro t ht
              have ht2 : t ∈ akeys (st2.userManagers ++ [(user, [])]) := ht
              rw [akeys_append] at ht2
              rcases List.mem_append.mp ht2 with h1 | h2
              · rw [hum2] at h1
                exact Or.inr h1
              · have h3 : t = user := by simpa [akeys] using h2
                exact Or.inl h3
            · exact fm_append (fm_append (fm_append
                (fm_cons (uf_map user) (fm_cons (uf_inc user) fm_nil)) heffsU)
                (fm_cons (uf_run user) fm_nil))
                (fm_cons (uf_update user files) (fm_cons (uf_sync user) fm_nil))
          · have hsm : syncManager env st user groups =
                ({ st2 with userManagers := aset user files (st2.userManagers ++ [(user, [])]) },
                 [Effect.mapRules user, Effect.incConfigUpdates user] ++ effs ++
                   [Effect.runManager user] ++
                   [Effect.updateManager user files]) := by
              simp only [syncManager, hm, eq_self_iff_true, if_true, hl, hnm, hu]
            rw [hsm]
            refine ⟨hring2, ?_, hntLook, ?_, hntOr, ?_⟩
            · intro t ht
              show alook t (aset user files (st2.userManagers ++ [(user, [])])) =
                alook t st.userManagers
              rw [alook_aset_ne t user files _ ht,
                alook_append_ne t user [] st2.userManagers ht, hum2]
            · intro t ht
              have ht2 : t ∈ akeys (aset user files
                  (st2.userManagers ++ [(user, [])])) := ht
              rw [akeys_aset, akeys_append] at ht2
              rcases List.mem_append.mp ht2 with h1 | h2
              · rw [hum2] at h1
                exact Or.inr h1
              · have h3 : t = user := by simpa [akeys] using h2
                exact Or.inl h3
            · exact fm_append (fm_append (fm_append
                (fm_cons (uf_map user) (fm_cons (uf_inc user) fm_nil)) heffsU)
                (fm_cons (uf_run user) fm_nil))
                (fm_cons (uf_update user files) fm_nil)
      · -- manager already registered
        rcases hu : env.updateResult user files with e | uv
        · have hsm : syncManager env st user groups =
              ({ st with configUpdates := abump user st.configUpdates },
               [Effect.mapRules user, Effect.incConfigUpdates user] ++
                 [Effect.updateManager user files, Effect.syncErr user]) := by
            simp only [syncManager, hm, eq_self_iff_true, if_true, hl, hu]
          rw [hsm]
          exact ⟨rfl, fun t ht => rfl, fun t ht => rfl, fun t ht => Or.inr ht,
            Or.inl rfl,
            fm_append (fm_cons (uf_map user) (fm_cons (uf_inc user) fm_nil))
              (fm_cons (uf_update user files) (fm_cons (uf_sync user) fm_nil))⟩
        · have hsm : syncManager env st user groups =
              ({ st with configUpdates := abump user st.configUpdates, userManagers := aset user files st.userManagers },
               [Effect.mapRules user, Effect.incConfigUpdates user] ++
                 [Effect.updateManager user files]) := by
            simp only [syncManager, hm, eq_self_iff_true, if_true, hl, hu]
          rw [hsm]
          refine ⟨rfl, ?_, fun t ht => rfl, ?_, Or.inl rfl, ?_⟩
          · intro t ht
            show alook t (aset user files st.userManagers) = alook t st.userManagers
            exact alook_aset_ne t user files st.userManagers ht
          · intro t ht
            have ht2 : t ∈ akeys (aset user files st.userManagers) := ht
            rw [akeys_aset] at ht2
            exact Or.inr ht2
          · exact fm_append (fm_cons (uf_map user) (fm_cons (uf_inc user) fm_nil))
              (fm_cons (uf_update user files) fm_nil)

/-- The hash the sharding loop computes for a group — reset the shared hasher,
write the group ID's UTF-8 bytes, read `Sum32` — is FNV-1a of those bytes,
whatever state the hasher carried before. -/
theorem hasher_shardKey (hasher : FnvHasher) (g : RuleGroup) :
    ((hasher.reset).write (strUTF8 (groupID g))).sum32 = shardKey g := rfl

/-- The sharding filter only ever touches the ring-error counter: the rest of
the state passes through, the counter is bumped exactly once on an aborting
run and not at all on a successful one, and the trace holds only ring lookups
and counter bumps. -/
theorem filterGroups_state (env : Env) :
    ∀ (groups : List RuleGroup) (hasher : FnvHasher) (st : RulerState),
      (filterGroups env hasher st groups).2.2.1.userManagers = st.userManagers ∧
      (filterGroups env hasher st groups).2.2.1.notifiers = st.notifiers ∧
      (filterGroups env hasher st groups).2.2.1.configUpdates = st.configUpdates ∧
      (∀ l, (filterGroups env hasher st groups).1 = .ok l →
        (filterGroups env hasher st groups).2.2.1 = st) ∧
      (∀ e, (filterGroups env hasher st groups).1 = .error e →
        (filterGroups env hasher st groups).2.2.1.ringCheckErrors =
          st.ringCheckErrors + 1) ∧
      (∀ ef ∈ (filterGroups env hasher st groups).2.2.2,
        (∃ k, ef = Effect.ringLookup k) ∨ ef = Effect.incRingCheckErrors) := by
  intro groups
  induction groups with
  | nil =>
    intro hasher st
    exact ⟨rfl, rfl, rfl, fun l _ => rfl, fun e he => Except.noConfusion he,
      fm_nil⟩
  | cons g rest ih =>
    intro hasher st
    obtain ⟨ih1, ih2, ih3, ih4, ih5, ih6⟩ :=
      ih ((hasher.reset).write (strUTF8 (groupID g))) st
    cases hrg : env.ringGet (shardKey g) with
    | error e =>
      have hsm : filterGroups env hasher st (g :: rest) =
          (.error e, (hasher.reset).write (strUTF8 (groupID g)),
           { st with ringCheckErrors := st.ringCheckErrors + 1 },
           [Effect.ringLookup (shardKey g), Effect.incRingCheckErrors]) := by
        simp only [filterGroups, hasher_shardKey, ownsRule, hrg]
      rw [hsm]
      refine ⟨rfl, rfl, rfl, ?_, ?_, ?_⟩
      · intro l hl
        exact Except.noConfusion hl
      · intro e' _
        rfl
      · exact fm_cons (Or.inl ⟨shardKey g, rfl⟩)
          (fm_cons (Or.inr rfl) fm_nil)
    | ok pr =>
      obtain ⟨a, others⟩ := pr
      cases hfg : filterGroups env ((hasher.reset).write (strUTF8 (groupID g)))
          st rest with
      | mk res r3 =>
        obtain ⟨h3, st2, effs2⟩ := r3
        rw [hfg] at ih1 ih2 ih3 ih4 ih5 ih6
        cases res with
        | error e2 =>
          have hsm : filterGroups env hasher st (g :: rest) =
              (.error e2, h3, st2, [Effect.ringLookup (shardKey g)] ++ effs2) := by
            simp only [filterGroups, hasher_shardKey, ownsRule, hrg, hfg]
          rw [hsm]
          refine ⟨ih1, ih2, ih3, ?_, ?_, ?_⟩
          · intro l hl
            exact Except.noConfusion hl
          · intro e' _
            exact ih5 e2 rfl
          · exact fm_cons (Or.inl ⟨shardKey g, rfl⟩) ih6
        | ok fg =>
          have hsm : filterGroups env hasher st (g :: rest) =
              (.ok (if a = env.selfAddr then g :: fg else fg), h3, st2,
               [Effect.ringLookup (shardKey g)] ++ effs2) := by
            simp only [filterGroups, hasher_shardKey, ownsRule, hrg, hfg,
              decide_eq_true_eq]
            try rfl
          rw [hsm]
          refine ⟨ih1, ih2, ih3, ?_, ?_, ?_⟩
          · intro l _
            exact ih4 fg rfl
          · intro e' he'
            exact Except.noConfusion he'
          · exact fm_cons (Or.inl ⟨shardKey g, rfl⟩) ih6

theorem ringEff_not_stop (t : TenantID) (ef : Effect)
    (h : (∃ k, ef = Effect.ringLookup k) ∨ ef = Effect.incRingCheckErrors) :
    ef ≠ Effect.stopManager t := by
  rcases h with ⟨k, rfl⟩ | rfl <;> simp

theorem ringEff_not_map (t : TenantID) (ef : Effect)
    (h : (∃ k, ef = Effect.ringLookup k) ∨ ef = Effect.incRingCheckErrors) :
    ef ≠ Effect.mapRules t := by
  rcases h with ⟨k, rfl⟩ | rfl <;> simp

/-- The per-user loop leaves tenants absent from the poll result untouched
(registry entry and notifier entry), introduces registry keys only for polled
tenants, and never stops a manager (stopping happens only in the cleanup phase
of `loadRules`). -/
theorem syncUsers_shape (env : Env) :
    ∀ (configs : List (TenantID × List RuleGroup)) (hasher : FnvHasher)
      (st : RulerState),
      (∀ t, t ∉ akeys configs →
        alook t (syncUsers env hasher st configs).1.userManagers =
          alook t st.userManagers) ∧
      (∀ t, t ∉ akeys configs →
        alook t (syncUsers env hasher st configs).1.notifiers =
          alook t st.notifiers) ∧
      (∀ t, t ∈ akeys (syncUsers env hasher st configs).1.userManagers →
        t ∈ akeys configs ∨ t ∈ akeys st.userManagers) ∧
      (∀ t, Effect.stopManager t ∉ (syncUsers env hasher st configs).2.1) := by
  intro configs
  induction configs with
  | nil =>
    intro hasher st
    exact ⟨fun t _ => rfl, fun t _ => rfl, fun t ht => Or.inr ht,
      fun t ht => absurd ht (List.not_mem_nil _)⟩
  | cons p rest ih =>
    obtain ⟨user, cfg⟩ := p
    intro hasher st
    have hkeys : akeys ((user, cfg) :: rest) = user :: akeys rest := rfl
    by_cases hsh : env.enableSharding
    · cases hfg : filterGroups env hasher st cfg with
      | mk res r3 =>
        obtain ⟨h1v, st1, effs⟩ := r3
        obtain ⟨hf1, hf2, hf3, hf4, hf5, hf6⟩ := filterGroups_state env cfg hasher st
        rw [hfg] at hf1 hf2 hf3 hf4 hf5 hf6
        cases res with
        | error e =>
          have hequ : syncUsers env hasher st ((user, cfg) :: rest) =
              (st1, effs ++ [Effect.ringErrAbort user], some user) := by
            simp only [syncUsers, hsh, eq_self_iff_true, if_true, hfg]
          rw [hequ]
          refine ⟨?_, ?_, ?_, ?_⟩
          · intro t _
            rw [hf1]
          · intro t _
            rw [hf2]
          · intro t ht
            rw [hf1] at ht
            exact Or.inr ht
          · intro t ht
            rcases List.mem_append.mp ht with hin | hin
            · exact ringEff_not_stop t _ (hf6 _ hin) rfl
            · simp at hin
        | ok fg =>
          have hst1 : st1 = st := hf4 fg rfl
          subst hst1
          cases hS : syncManager env st1 user fg with
          | mk st2 effs2 =>
            obtain ⟨hs1, hs2, hs3, hs4, hs5, hs6⟩ :=
              syncManager_shape env st1 user fg
            rw [hS] at hs1 hs2 hs3 hs4 hs5 hs6
            cases hrec : syncUsers env h1v st2 rest with
            | mk st3 r4 =>
              obtain ⟨effs3, ab⟩ := r4
              obtain ⟨hr1, hr2, hr3, hr4⟩ := ih h1v st2
              rw [hrec] at hr1 hr2 hr3 hr4
              have hequ : syncUsers env hasher st1 ((user, cfg) :: rest) =
                  (st3, effs ++ effs2 ++ effs3, ab) := by
                simp only [syncUsers, hsh, eq_self_iff_true, if_true, hfg, hS,
                  hrec]
              rw [hequ]
              refine ⟨?_, ?_, ?_, ?_⟩
              · intro t ht
                rw [hkeys, List.mem_cons] at ht
                push_neg at ht
                rw [hr1 t ht.2, hs2 t ht.1]
              · intro t ht
                rw [hkeys, List.mem_cons] at ht
                push_neg at ht
                rw [hr2 t ht.2, hs3 t ht.1]
              · intro t ht
                rcases hr3 t ht with hin | hin
                · exact Or.inl (by rw [hkeys, List.mem_cons]; exact Or.inr hin)
                · rcases hs4 t hin with rfl | hin2
                  · exact Or.inl (by rw [hkeys, List.mem_cons]; exact Or.inl rfl)
                  · exact Or.inr hin2
              · intro t ht
                rcases List.mem_append.mp ht with hin | hin
                · rcases List.mem_append.mp hin with hin2 | hin2
                  · exact ringEff_not_stop t _ (hf6 _ hin2) rfl
                  · exact userEff_not_stop user t (hs6 _ hin2)
                · exact hr4 t hin
    · cases hS : syncManager env st user cfg with
      | mk st2 effs2 =>
        obtain ⟨hs1, hs2, hs3, hs4, hs5, hs6⟩ := syncManager_shape env st user cfg
        rw [hS] at hs1 hs2 hs3 hs4 hs5 hs6
        cases hrec : syncUsers env hasher st2 rest with
        | mk st3 r4 =>
          obtain ⟨effs3, ab⟩ := r4
          obtain ⟨hr1, hr2, hr3, hr4⟩ := ih hasher st2
          rw [hrec] at hr1 hr2 hr3 hr4
          have hequ : syncUsers env hasher st ((user, cfg) :: rest) =
              (st3, effs2 ++ effs3, ab) := by
            simp only [syncUsers, hsh, Bool.false_eq_true, if_false, hS, hrec]
          rw [hequ]
          refine ⟨?_, ?_, ?_, ?_⟩
          · intro t ht
            rw [hkeys, List.mem_cons] at ht
            push_neg at ht
            rw [hr1 t ht.2, hs2 t ht.1]
          · intro t ht
            rw [hkeys, List.mem_cons] at ht
            push_neg at ht
            rw [hr2 t ht.2, hs3 t ht.1]
          · intro t ht
            rcases hr3 t ht with hin | hin
            · exact Or.inl (by rw [hkeys, List.mem_cons]; exact Or.inr hin)
            · rcases hs4 t hin with rfl | hin2
              · exact Or.inl (by rw [hkeys, List.mem_cons]; exact Or.inl rfl)
              · exact Or.inr hin2
          · intro t ht
            rcases List.mem_append.mp ht with hin | hin
            · exact userEff_not_stop user t (hs6 _ hin)
            · exact hr4 t hin

/-- Bookkeeping of an aborted per-user loop: when the loop returns `some u`,
the ring-error counter was bumped exactly once, the poll result splits at some
position `n` whose entry is `u`'s, every file-mapping the loop performed this
tick belongs to a tenant among the first `n` entries, and every tenant outside
the first `n` entries has its registry entry unchanged. -/
theorem syncUsers_abort (env : Env) :
    ∀ (configs : List (TenantID × List RuleGroup)) (hasher : FnvHasher)
      (st : RulerState) (u : TenantID),
      (syncUsers env hasher st configs).2.2 = some u →
      (syncUsers env hasher st configs).1.ringCheckErrors =
        st.ringCheckErrors + 1 ∧
      ∃ n cfgU rest2, configs.drop n = (u, cfgU) :: rest2 ∧
        (∀ t, Effect.mapRules t ∈ (syncUsers env hasher st configs).2.1 →
          t ∈ akeys (configs.take n)) ∧
        (∀ t, t ∉ akeys (configs.take n) →
          alook t (syncUsers env hasher st configs).1.userManagers =
            alook t st.userManagers) := by
  intro configs
  induction configs with
  | nil =>
    intro hasher st u hab
    exact Option.noConfusion hab
  | cons p rest ih =>
    obtain ⟨user, cfg⟩ := p
    intro hasher st u hab
    by_cases hsh : env.enableSharding
    · cases hfg : filterGroups env hasher st cfg with
      | mk res r3 =>
        obtain ⟨h1v, st1, effs⟩ := r3
        obtain ⟨hf1, hf2, hf3, hf4, hf5, hf6⟩ := filterGroups_state env cfg hasher st
        rw [hfg] at hf1 hf2 hf3 hf4 hf5 hf6
        cases res with
        | error e =>
          have hequ : syncUsers env hasher st ((user, cfg) :: rest) =
              (st1, effs ++ [Effect.ringErrAbort user], some user) := by
            simp only [syncUsers, hsh, eq_self_iff_true, if_true, hfg]
          rw [hequ] at hab ⊢
          have huser : user = u := by
            have := hab
            simp only at this
            exact Option.some.inj this
          subst huser
          refine ⟨hf5 e rfl, 0, cfg, rest, rfl, ?_, ?_⟩
          · intro t ht
            rcases List.mem_append.mp ht with hin | hin
            · exact absurd rfl (ringEff_not_map t _ (hf6 _ hin))
            · simp at hin
          · intro t _
            rw [hf1]
        | ok fg =>
          have hst1 : st1 = st := hf4 fg rfl
          subst hst1
          cases hS : syncManager env st1 user fg with
          | mk st2 effs2 =>
            obtain ⟨hs1, hs2, hs3, hs4, hs5, hs6⟩ :=
              syncManager_shape env st1 user fg
            rw [hS] at hs1 hs2 hs3 hs4 hs5 hs6
            cases hrec : syncUsers env h1v st2 rest with
            | mk st3 r4 =>
              obtain ⟨effs3, ab⟩ := r4
              have hequ : syncUsers env hasher st1 ((user, cfg) :: rest) =
                  (st3, effs ++ effs2 ++ effs3, ab) := by
                simp only [syncUsers, hsh, eq_self_iff_true, if_true, hfg, hS,
                  hrec]
              rw [hequ] at hab ⊢
              have hab2 : (syncUsers env h1v st2 rest).2.2 = some u := by
                rw [hrec]
                exact hab
              obtain ⟨hring, n, cfgU, rest2, hdrop, hmap, hal⟩ :=
                ih h1v st2 u hab2
              rw [hrec] at hring hmap hal
              refine ⟨by rw [hring, hs1], n + 1, cfgU, rest2, ?_, ?_, ?_⟩
              · rw [List.drop_succ_cons]
                exact hdrop
              · intro t ht
                rw [List.take_succ_cons]
                have hkeys : akeys ((user, cfg) :: rest.take n) =
                    user :: akeys (rest.take n) := rfl
                rw [hkeys, List.mem_cons]
                rcases List.mem_append.mp ht with hin | hin
                · rcases List.mem_append.mp hin with hin2 | hin2
                  · exact absurd rfl (ringEff_not_map t _ (hf6 _ hin2))
                  · exact Or.inl (userEff_mapRules user t (hs6 _ hin2))
                · exact Or.inr (hmap t hin)
              · intro t ht
                rw [List.take_succ_cons] at ht
                have hkeys : akeys ((user, cfg) :: rest.take n) =
                    user :: akeys (rest.take n) := rfl
                rw [hkeys, List.mem_cons] at ht
                push_neg at ht
                rw [hal t ht.2, hs2 t ht.1]
    · cases hS : syncManager env st user cfg with
      | mk st2 effs2 =>
        obtain ⟨hs1, hs2, hs3, hs4, hs5, hs6⟩ := syncManager_shape env st user cfg
        rw [hS] at hs1 hs2 hs3 hs4 hs5 hs6
        cases hrec : syncUsers env hasher st2 rest with
        | mk st3 r4 =>
          obtain ⟨effs3, ab⟩ := r4
          have hequ : syncUsers env hasher st ((user, cfg) :: rest) =
              (st3, effs2 ++ effs3, ab) := by
            simp only [syncUsers, hsh, Bool.false_eq_true, if_false, hS, hrec]
          rw [hequ] at hab ⊢
          have hab2 : (syncUsers env hasher st2 rest).2.2 = some u := by
            rw [hrec]
            exact hab
          obtain ⟨hring, n, cfgU, rest2, hdrop, hmap, hal⟩ :=
            ih hasher st2 u hab2
          rw [hrec] at hring hmap hal
          refine ⟨by rw [hring, hs1], n + 1, cfgU, rest2, ?_, ?_, ?_⟩
          · rw [List.drop_succ_cons]
            exact hdrop
          · intro t ht
            rw [List.take_succ_cons]
            have hkeys : akeys ((user, cfg) :: rest.take n) =
                user :: akeys (rest.take n) := rfl
            rw [hkeys, List.mem_cons]
            rcases List.mem_append.mp ht with hin | hin
            · exact Or.inl (userEff_mapRules user t (hs6 _ hin))
            · exact Or.inr (hmap t hin)
          · intro t ht
            rw [List.take_succ_cons] at ht
            have hkeys : akeys ((user, cfg) :: rest.take n) =
                user :: akeys (rest.take n) := rfl
            rw [hkeys, List.mem_cons] at ht
            push_neg at ht
            rw [hal t ht.2, hs2 t ht.1]

/-! ### Notifier-map invariant preservation -/

theorem notifInv_ext (st st' : RulerState) (h : st'.notifiers = st.notifiers)
    (hinv : NotifierInv st) : NotifierInv st' := by
  unfold NotifierInv at hinv ⊢
  rw [h]
  exact hinv

theorem notifInv_of_or (st st' : RulerState) (u : TenantID)
    (h : st'.notifiers = st.notifiers ∨
      (st'.notifiers = st.notifiers ++ [(u, 1)] ∧ alook u st.notifiers = none))
    (hinv : NotifierInv st) : NotifierInv st' := by
  rcases h with hsame | ⟨happ, hnone⟩
  · exact notifInv_ext st st' hsame hinv
  · obtain ⟨hnd, hone⟩ := hinv
    constructor
    · show (akeys st'.notifiers).Nodup
      rw [happ, akeys_append]
      rw [List.nodup_append]
      refine ⟨hnd, List.nodup_singleton u, ?_⟩
      intro a ha hb
      have ha2 : a = u := by simpa [akeys] using hb
      subst ha2
      exact ((alook_none_iff a st.notifiers).mp hnone) ha
    · intro p hp
      rw [happ] at hp
      rcases List.mem_append.mp hp with h1 | h2
      · exact hone p h1
      · have hp2 : p = (u, 1) := by simpa using h2
        rw [hp2]

theorem notifInv_syncManager (env : Env) (st : RulerState) (user : TenantID)
    (groups : List RuleGroup) (hinv : NotifierInv st) :
    NotifierInv (syncManager env st user groups).1 :=
  notifInv_of_or st _ user (syncManager_shape env st user groups).2.2.2.2.1 hinv

theorem notifInv_syncUsers (env : Env) :
    ∀ (configs : List (TenantID × List RuleGroup)) (hasher : FnvHasher)
      (st : RulerState), NotifierInv st →
      NotifierInv (syncUsers env hasher st configs).1 := by
  intro configs
  induction configs with
  | nil =>
    intro hasher st hinv
    exact hinv
  | cons p rest ih =>
    obtain ⟨user, cfg⟩ := p
    intro hasher st hinv
    by_cases hsh : env.enableSharding
    · cases hfg : filterGroups env hasher st cfg with
      | mk res r3 =>
        obtain ⟨h1v, st1, effs⟩ := r3
        obtain ⟨_, hf2, _, _, _, _⟩ := filterGroups_state env cfg hasher st
        rw [hfg] at hf2
        have hinv1 : NotifierInv st1 := notifInv_ext st st1 hf2 hinv
        cases res with
        | error e =>
          have hequ : syncUsers env hasher st ((user, cfg) :: rest) =
              (st1, effs ++ [Effect.ringErrAbort user], some user) := by
            simp only [syncUsers, hsh, eq_self_iff_true, if_true, hfg]
          rw [hequ]
          exact hinv1
        | ok fg =>
          cases hS : syncManager env st1 user fg with
          | mk st2 effs2 =>
            have hinv2 : NotifierInv st2 := by
              have h2 := notifInv_syncManager env st1 user fg hinv1
              rw [hS] at h2
              exact h2
            cases hrec : syncUsers env h1v st2 rest with
            | mk st3 r4 =>
              obtain ⟨effs3, ab⟩ := r4
              have hinv3 : NotifierInv st3 := by
                have h3 := ih h1v st2 hinv2
                rw [hrec] at h3
                exact h3
              have hequ : syncUsers env hasher st ((user, cfg) :: rest) =
                  (st3, effs ++ effs2 ++ effs3, ab) := by
                simp only [syncUsers, hsh, eq_self_iff_true, if_true, hfg, hS,
                  hrec]
              rw [hequ]
              exact hinv3
    · cases hS : syncManager env st user cfg with
      | mk st2 effs2 =>
        have hinv2 : NotifierInv st2 := by
          have h2 := notifInv_syncManager env st user cfg hinv
          rw [hS] at h2
          exact h2
        cases hrec : syncUsers env hasher st2 rest with
        | mk st3 r4 =>
          obtain ⟨effs3, ab⟩ := r4
          have hinv3 : NotifierInv st3 := by
            have h3 := ih hasher st2 hinv2
            rw [hrec] at h3
            exact h3
          have hequ : syncUsers env hasher st ((user, cfg) :: rest) =
              (st3, effs2 ++ effs3, ab) := by
            simp only [syncUsers, hsh, Bool.false_eq_true, if_false, hS, hrec]
          rw [hequ]
          exact hinv3

theorem notifInv_loadRules (env : Env) (st : RulerState)
    (hinv : NotifierInv st) : NotifierInv (loadRules env st).1 := by
  cases hst : env.storeResult with
  | error e =>
    have hlr : loadRules env st = (st, [], none) := by
      simp only [loadRules, hst]
    rw [hlr]
    exact hinv
  | ok configs =>
    cases hsu : syncUsers env ⟨fnvOffsetBasis⟩ st configs with
    | mk st1 r2 =>
      obtain ⟨effs, ab⟩ := r2
      have hinv1 : NotifierInv st1 := by
        have h1 := notifInv_syncUsers env configs ⟨fnvOffsetBasis⟩ st hinv
        rw [hsu] at h1
        exact h1
      cases ab with
      | some u2 =>
        have hlr : loadRules env st = (st1, effs, some u2) := by
          simp only [loadRules, hst, hsu]
        rw [hlr]
        exact hinv1
      | none =>
        have hlr : loadRules env st =
            ({ st1 with userManagers :=
                st1.userManagers.filter fun p => memb p.1 (akeys configs) },
             effs ++ (st1.userManagers.filter
                fun p => !(memb p.1 (akeys configs))).map
                  fun p => Effect.stopManager p.1,
             none) := by
          simp only [loadRules, hst, hsu]
        rw [hlr]
        exact notifInv_ext st1 _ rfl hinv1

theorem newManager_result (env : Env) (st : RulerState) (u : TenantID) :
    (newManager env st u).1 = (getOrCreateNotifier env st u).1 := by
  unfold newManager
  rcases h : getOrCreateNotifier env st u with ⟨r, st1, effs⟩
  cases r <;> simp

theorem goc_ok_of_applyOk (env : Env) (st : RulerState) (u : TenantID)
    (h : env.applyConfigOk = true) :
    (getOrCreateNotifier env st u).1 = .ok () := by
  rcases hlk : alook u st.notifiers with _ | c
  · simp only [getOrCreateNotifier, hlk, h, eq_self_iff_true, if_true]
  · simp only [getOrCreateNotifier, hlk]

theorem goc_err_of_applyBad (env : Env) (st : RulerState) (u : TenantID)
    (hno : alook u st.notifiers = none) (hc : env.applyConfigOk = false) :
    (getOrCreateNotifier env st u).1 = .error "applyConfig failed" := by
  simp only [getOrCreateNotifier, hno, hc, Bool.false_eq_true, if_false]

/-! ### C1: ring errors abort the tick (with already-processed tenants kept) -/

/-- C1 counterexample: with sharding on, the ring answers for tenant `a`'s
group but fails on tenant `b`'s, so the tick aborts and the counter is
bumped — yet tenant `a`, processed before the failure, had its files mapped,
an evaluator created and registered: changes *were* applied this tick. -/
theorem loadRules_ring_abort_partial_cex :
    envShard.enableSharding = true ∧
    (loadRules envShard initState).2.2 = some "b" ∧
    (loadRules envShard initState).1.ringCheckErrors = 1 ∧
    Effect.mapRules "a" ∈ (loadRules envShard initState).2.1 ∧
    Effect.createManager "a" ∈ (loadRules envShard initState).2.1 ∧
    alook "a" (loadRules envShard initState).1.userManagers = some ["f1"] := by
  decide

/-- C1 (amended): when the ring-ownership check fails during a tick (reported
as an abort on user `u`), the ring-check error counter is incremented exactly
once, the stale-tenant cleanup is skipped (no manager is ever stopped), and
splitting the poll result at the aborting entry `n` (which is `u`'s), no files
are mapped and no registry entry changes for any tenant outside the entries
processed before the abort — tenants processed earlier keep their applied
changes. -/
theorem loadRules_ring_error_aborts (env : Env) (st : RulerState)
    (configs : List (TenantID × List RuleGroup)) (u : TenantID)
    (h : env.storeResult = .ok configs)
    (hab : (loadRules env st).2.2 = some u) :
    (loadRules env st).1.ringCheckErrors = st.ringCheckErrors + 1 ∧
    (∀ t, Effect.stopManager t ∉ (loadRules env st).2.1) ∧
    ∃ n cfgU rest2, configs.drop n = (u, cfgU) :: rest2 ∧
      (∀ t, Effect.mapRules t ∈ (loadRules env st).2.1 →
        t ∈ akeys (configs.take n)) ∧
      (∀ t, t ∉ akeys (configs.take n) →
        alook t (loadRules env st).1.userManagers = alook t st.userManagers) := by
  cases hsu : syncUsers env ⟨fnvOffsetBasis⟩ st configs with
  | mk st1 r2 =>
    obtain ⟨effs, ab⟩ := r2
    cases ab with
    | none =>
      have hlr : (loadRules env st).2.2 = none := by
        simp only [loadRules, h, hsu]
      rw [hlr] at hab
      exact Option.noConfusion hab
    | some u2 =>
      have hlr : loadRules env st = (st1, effs, some u2) := by
        simp only [loadRules, h, hsu]
      rw [hlr] at hab ⊢
      have hu2 : u2 = u := Option.some.inj hab
      subst hu2
      have hab2 : (syncUsers env ⟨fnvOffsetBasis⟩ st configs).2.2 = some u2 := by
        rw [hsu]
      obtain ⟨hring, n, cfgU, rest2, hdrop, hmap, hal⟩ :=
        syncUsers_abort env configs ⟨fnvOffsetBasis⟩ st u2 hab2
      rw [hsu] at hring hmap hal
      obtain ⟨_, _, _, hstop⟩ := syncUsers_shape env configs ⟨fnvOffsetBasis⟩ st
      rw [hsu] at hstop
      exact ⟨hring, hstop, n, cfgU, rest2, hdrop, hmap, hal⟩

/-- C1 witness: the amended theorem applied at the concrete aborting tick. -/
theorem loadRules_ring_error_aborts_witness :
    (loadRules envShard initState).1.ringCheckErrors =
      initState.ringCheckErrors + 1 ∧
    Effect.stopManager "b" ∉ (loadRules envShard initState).2.1 :=
  ⟨(loadRules_ring_error_aborts envShard initState [("a", [grpA]), ("b", [grpB])]
      "b" rfl (by decide)).1,
   (loadRules_ring_error_aborts envShard initState [("a", [grpA]), ("b", [grpB])]
      "b" rfl (by decide)).2.1 "b"⟩

/-! ### C3: the registry after a tick -/

/-- C3 counterexample: the store poll returns only tenant `u`; the ring fails
immediately, aborting the tick.  Stale tenant `w` stays registered although it
is not in the poll result and nothing errored while processing `w` (no effect
of the tick is attributed to `w`), contradicting the claimed subset bound
`T ∪ previously-registered-tenants-that-errored-this-tick`. -/
theorem registry_subset_cex :
    env3.storeResult = .ok [("u", [gu])] ∧
    "w" ∈ akeys (loadRules env3 stW).1.userManagers ∧
    "w" ∉ akeys [("u", [gu])] ∧
    erroredUser (loadRules env3 stW).2.1 "w" = false := by
  decide

/-- C3 (amended): after a tick whose poll returned `configs`, the registry's
tenant set is contained in the polled tenants united with the previously
registered tenants; when the tick was not aborted by a ring error, the
registry's tenant set is contained in the polled tenants alone (regardless of
which tenants errored). -/
theorem registry_tenants_subset (env : Env) (st : RulerState)
    (configs : List (TenantID × List RuleGroup))
    (h : env.storeResult = .ok configs) :
    (∀ t, t ∈ akeys (loadRules env st).1.userManagers →
      t ∈ akeys configs ∨ t ∈ akeys st.userManagers) ∧
    ((loadRules env st).2.2 = none →
      ∀ t, t ∈ akeys (loadRules env st).1.userManagers → t ∈ akeys configs) := by
  cases hsu : syncUsers env ⟨fnvOffsetBasis⟩ st configs with
  | mk st1 r2 =>
    obtain ⟨effs, ab⟩ := r2
    obtain ⟨hsh1, hsh2, hsh3, hsh4⟩ :=
      syncUsers_shape env configs ⟨fnvOffsetBasis⟩ st
    rw [hsu] at hsh1 hsh2 hsh3 hsh4
    cases ab with
    | some u2 =>
      have hlr : loadRules env st = (st1, effs, some u2) := by
        simp only [loadRules, h, hsu]
      rw [hlr]
      refine ⟨fun t ht => hsh3 t ht, ?_⟩
      intro hnone
      exact Option.noConfusion hnone
    | none =>
      have hlr : loadRules env st =
          ({ st1 with userManagers :=
              st1.userManagers.filter fun p => memb p.1 (akeys configs) },
           effs ++ (st1.userManagers.filter
              fun p => !(memb p.1 (akeys configs))).map
                fun p => Effect.stopManager p.1,
           none) := by
        simp only [loadRules, h, hsu]
      rw [hlr]
      constructor
      · intro t ht
        exact Or.inl ((memb_iff t (akeys configs)).mp
          (akeys_filter_mem t (akeys configs) st1.userManagers ht).1)
      · intro _ t ht
        exact (memb_iff t (akeys configs)).mp
          (akeys_filter_mem t (akeys configs) st1.userManagers ht).1

/-- C3 witness: the amended subset bound applied at the aborting tick: the
stale tenant `w` is still accounted for by the previous registry. -/
theorem registry_tenants_subset_witness :
    "w" ∈ akeys [("u", [gu])] ∨ "w" ∈ akeys stW.userManagers :=
  (registry_tenants_subset env3 stW [("u", [gu])] rfl).1 "w" (by decide)

/-! ### C4: dropping a tenant stops its evaluator but keeps its notifier -/

/-- C4 counterexample: the poll succeeds and does not contain tenant `t`,
`t` has a registered evaluator — but the tick aborts on a ring error before
the cleanup phase, so `t`'s evaluator is neither stopped nor removed. -/
theorem drop_tenant_cex :
    env4.storeResult = .ok [("u", [gu])] ∧
    "t" ∉ akeys [("u", [gu])] ∧
    "t" ∈ akeys st4.userManagers ∧
    alook "t" (loadRules env4 st4).1.userManagers = some ["tf"] ∧
    Effect.stopManager "t" ∉ (loadRules env4 st4).2.1 := by
  decide

/-- C4 (amended): after a successful poll whose result does not contain
tenant `t`, provided the tick is not aborted by a ring-ownership error, a
registered evaluator of `t` is stopped and removed from the registry while
`t`'s notifier entry is left untouched. -/
theorem drop_tenant_stops_manager (env : Env) (st : RulerState)
    (configs : List (TenantID × List RuleGroup)) (t : TenantID)
    (h : env.storeResult = .ok configs)
    (hab : (loadRules env st).2.2 = none)
    (ht : t ∉ akeys configs)
    (hreg : t ∈ akeys st.userManagers) :
    alook t (loadRules env st).1.userManagers = none ∧
    Effect.stopManager t ∈ (loadRules env st).2.1 ∧
    alook t (loadRules env st).1.notifiers = alook t st.notifiers := by
  cases hsu : syncUsers env ⟨fnvOffsetBasis⟩ st configs with
  | mk st1 r2 =>
    obtain ⟨effs, ab⟩ := r2
    obtain ⟨hsh1, hsh2, hsh3, hsh4⟩ :=
      syncUsers_shape env configs ⟨fnvOffsetBasis⟩ st
    rw [hsu] at hsh1 hsh2 hsh3 hsh4
    cases ab with
    | some u2 =>
      have hlr : (loadRules env st).2.2 = some u2 := by
        simp only [loadRules, h, hsu]
      rw [hlr] at hab
      exact Option.noConfusion hab
    | none =>
      have hlr : loadRules env st =
          ({ st1 with userManagers :=
              st1.userManagers.filter fun p => memb p.1 (akeys configs) },
           effs ++ (st1.userManagers.filter
              fun p => !(memb p.1 (akeys configs))).map
                fun p => Effect.stopManager p.1,
           none) := by
        simp only [loadRules, h, hsu]
      rw [hlr]
      have hmf : memb t (akeys configs) = false := (memb_false_iff _ _).mpr ht
      refine ⟨alook_filter_drop t (akeys configs) st1.userManagers hmf, ?_, ?_⟩
      · obtain ⟨v, hv⟩ := (alook_isSome_iff t st.userManagers).mpr hreg
        have hv1 : alook t st1.userManagers = some v := by
          rw [hsh1 t ht]
          exact hv
        have hmem : (t, v) ∈ st1.userManagers := alook_mem t v _ hv1
        have hmem2 : (t, v) ∈ st1.userManagers.filter
            fun p => !(memb p.1 (akeys configs)) := by
          rw [List.mem_filter]
          exact ⟨hmem, by rw [hmf]; rfl⟩
        refine List.mem_append.mpr (Or.inr ?_)
        exact List.mem_map.mpr ⟨(t, v), hmem2, rfl⟩
      · exact hsh2 t ht

/-- C4 witness: a completed tick without `t` in the poll drops `t`'s
evaluator, emits its stop, and leaves `t`'s notifier entry unchanged. -/
theorem drop_tenant_stops_manager_witness :
    (loadRules env5 st4).2.2 = none ∧
    alook "t" (loadRules env5 st4).1.userManagers = none ∧
    Effect.stopManager "t" ∈ (loadRules env5 st4).2.1 ∧
    alook "t" (loadRules env5 st4).1.notifiers = alook "t" st4.notifiers :=
  ⟨by decide,
   (drop_tenant_stops_manager env5 st4 [("u", [gu])] "t" rfl (by decide)
      (by decide) (by decide)).1,
   (drop_tenant_stops_manager env5 st4 [("u", [gu])] "t" rfl (by decide)
      (by decide) (by decide)).2.1,
   (drop_tenant_stops_manager env5 st4 [("u", [gu])] "t" rfl (by decide)
      (by decide) (by decide)).2.2⟩

/-! ### C8: the shard key is FNV-1a of `tenant/namespace/name` -/

theorem filterGroups_ringKeys (env : Env) :
    ∀ (groups : List RuleGroup) (hasher : FnvHasher) (st : RulerState),
      (∃ n, ringKeys (filterGroups env hasher st groups).2.2.2 =
        (groups.map shardKey).take n) ∧
      (∀ l, (filterGroups env hasher st groups).1 = .ok l →
        ringKeys (filterGroups env hasher st groups).2.2.2 =
          groups.map shardKey) := by
  intro groups
  induction groups with
  | nil => intro hasher st; exact ⟨⟨0, rfl⟩, fun _ _ => rfl⟩
  | cons g rest ih =>
    intro hasher st
    simp only [filterGroups, hasher_shardKey]
    cases hrg : env.ringGet (shardKey g) with
    | error e =>
      simp only [ownsRule, hrg]
      exact ⟨⟨1, rfl⟩, fun l hl => by simp at hl⟩
    | ok pr =>
      simp only [ownsRule, hrg]
      obtain ⟨⟨n, hn⟩, hok⟩ :=
        ih ((hasher.reset).write (strUTF8 (groupID g))) st
      cases hfg : filterGroups env ((hasher.reset).write (strUTF8 (groupID g)))
          st rest with
      | mk res rest3 =>
        obtain ⟨h3, st2, effs2⟩ := rest3
        cases res with
        | error e =>
          refine ⟨⟨n + 1, ?_⟩, fun l hl => by simp at hl⟩
          rw [hfg] at hn
          simpa [ringKeys, List.map_cons, List.take_succ_cons] using hn
        | ok fg =>
          constructor
          · refine ⟨n + 1, ?_⟩
            rw [hfg] at hn
            simpa [ringKeys, List.map_cons, List.take_succ_cons] using hn
          · intro l _
            have := hok fg (by rw [hfg])
            rw [hfg] at this
            simpa [ringKeys, List.map_cons] using this

/-- C8: the ring-ownership decision for every rule group is made at exactly
the 32-bit FNV-1a hash of the UTF-8 bytes of `tenant + "/" + namespace + "/" +
name`: the keys looked up by the sharding filter are `shardKey` of the groups
in order (all of them when no ring error interrupts, a prefix otherwise), and
`shardKey` is a deterministic function of the three identity fields alone. -/
theorem shardKey_fnv1a_deterministic (env : Env) (hasher : FnvHasher)
    (st : RulerState) (groups : List RuleGroup) :
    (∃ n, ringKeys (filterGroups env hasher st groups).2.2.2 =
      (groups.map shardKey).take n) ∧
    (∀ l, (filterGroups env hasher st groups).1 = .ok l →
      ringKeys (filterGroups env hasher st groups).2.2.2 = groups.map shardKey) ∧
    (∀ g g' : RuleGroup, g.user = g'.user → g.ns = g'.ns → g.name = g'.name →
      shardKey g = shardKey g') ∧
    (∀ g : RuleGroup,
      shardKey g = fnv1a32 (strUTF8 (g.user ++ "/" ++ g.ns ++ "/" ++ g.name))) := by
  obtain ⟨h1, h2⟩ := filterGroups_ringKeys env groups hasher st
  refine ⟨h1, h2, ?_, fun g => rfl⟩
  intro g g' hu hn hm
  unfold shardKey groupID
  rw [hu, hn, hm]

/-- C8 witness: on a concrete healthy-ring filter run the keys looked up in
the ring are exactly the groups' FNV-1a shard keys, and the key of `grpA`
equals the key of an identical copy of `grpA`. -/
theorem shardKey_fnv1a_deterministic_witness :
    ringKeys (filterGroups envShard ⟨fnvOffsetBasis⟩ initState [grpA]).2.2.2 =
      [grpA].map shardKey ∧
    shardKey grpA = shardKey { user := "a", ns := "ns", name := "g1" } ∧
    shardKey grpA = fnv1a32 (strUTF8 ("a" ++ "/" ++ "ns" ++ "/" ++ "g1")) :=
  ⟨(shardKey_fnv1a_deterministic envShard ⟨fnvOffsetBasis⟩ initState [grpA]).2.1
      [grpA] (by decide),
   (shardKey_fnv1a_deterministic envShard ⟨fnvOffsetBasis⟩ initState [grpA]).2.2.1
      grpA { user := "a", ns := "ns", name := "g1" } rfl rfl rfl,
   (shardKey_fnv1a_deterministic envShard ⟨fnvOffsetBasis⟩ initState [grpA]).2.2.2
      grpA⟩

/-! ### C5: one notifier per tenant, configured exactly once -/

/-- C5: the notifier map keeps at most one entry per tenant, `applyConfig`
having been applied exactly once to each registered notifier
(`NotifierInv`); `getOrCreateNotifier` returns the existing notifier
untouched (no effect) when one is registered, and on first creation it
applies the configuration exactly once before registering the notifier; the
invariant is preserved by `getOrCreateNotifier` itself and by every sync
tick. -/
theorem notifier_map_unique_applyOnce (env : Env) (st : RulerState)
    (u : TenantID) (hinv : NotifierInv st) :
    NotifierInv (getOrCreateNotifier env st u).2.1 ∧
    (∀ c, alook u st.notifiers = some c →
      getOrCreateNotifier env st u = (.ok (), st, [])) ∧
    (alook u st.notifiers = none → env.applyConfigOk = true →
      alook u (getOrCreateNotifier env st u).2.1.notifiers = some 1 ∧
      (getOrCreateNotifier env st u).2.2 = [Effect.applyNotifierConfig u]) ∧
    (∀ env2, NotifierInv (loadRules env2 st).1) := by
  refine ⟨notifInv_of_or st _ u (goc_shape env st u).2.2.2.1 hinv, ?_, ?_, ?_⟩
  · intro c hc
    simp only [getOrCreateNotifier, hc]
  · intro h1 h2
    have hg : (getOrCreateNotifier env st u).2.1.notifiers =
        st.notifiers ++ [(u, 1)] := by
      simp only [getOrCreateNotifier, h1, h2, eq_self_iff_true, if_true]
    constructor
    · rw [hg, alook_append, h1]
      show (if u = u then some 1 else none) = some 1
      rw [if_pos rfl]
    · simp only [getOrCreateNotifier, h1, h2, eq_self_iff_true, if_true]
  · intro env2
    exact notifInv_loadRules env2 st hinv

/-- C5 witness: a fresh tenant `y` gets a notifier configured exactly once;
the existing tenant `x` gets its notifier back with no state change. -/
theorem notifier_map_unique_applyOnce_witness :
    alook "y" (getOrCreateNotifier env6 st5 "y").2.1.notifiers = some 1 ∧
    (getOrCreateNotifier env6 st5 "y").2.2 = [Effect.applyNotifierConfig "y"] ∧
    getOrCreateNotifier env6 st5 "x" = (.ok (), st5, []) :=
  ⟨((notifier_map_unique_applyOnce env6 st5 "y"
      ⟨by decide, by decide⟩).2.2.1 (by decide) rfl).1,
   ((notifier_map_unique_applyOnce env6 st5 "y"
      ⟨by decide, by decide⟩).2.2.1 (by decide) rfl).2,
   (notifier_map_unique_applyOnce env6 st5 "x"
      ⟨by decide, by decide⟩).2.1 1 (by decide)⟩

/-! ### C10: counter bumped before create/update, never rolled back -/

/-- C10 counterexample: the mapper reports a change for a fresh tenant, the
evaluator is created and registered, then `Update` fails — the counter stays
incremented (as the claim says) but the tenant's evaluator state did *not*
remain unchanged: a new manager is now registered where none was. -/
theorem syncManager_counter_cex :
    alook "t" initState.userManagers = none ∧
    isErr (env10.updateResult "t" ["f"]) = true ∧
    alookC "t" (syncManager env10 initState "t" []).1.configUpdates = 1 ∧
    alook "t" (syncManager env10 initState "t" []).1.userManagers = some [] := by
  decide

/-- C10 (amended): when the mapper reports a change, the
`configUpdatesTotal{user}` counter is bumped first — the trace starts with the
map step followed immediately by the counter bump, and the bump never recurs
later — and the bump is never rolled back on failure.  If evaluator creation
fails (fresh notifier, failing `applyConfig`), the registry is unchanged; if
`Update` fails on an existing evaluator, its entry is unchanged; if `Update`
fails on a freshly created evaluator, that evaluator remains registered (with
no loaded files). -/
theorem syncManager_counter_before_update (env : Env) (st : RulerState)
    (user : TenantID) (groups : List RuleGroup) (files : List String)
    (hm : env.mapRules user groups = .ok (true, files)) :
    alookC user (syncManager env st user groups).1.configUpdates =
      alookC user st.configUpdates + 1 ∧
    (∃ restTr, (syncManager env st user groups).2 =
      Effect.mapRules user :: Effect.incConfigUpdates user :: restTr ∧
      Effect.incConfigUpdates user ∉ restTr) ∧
    (alook user st.userManagers = none → alook user st.notifiers = none →
      env.applyConfigOk = false →
      alook user (syncManager env st user groups).1.userManagers = none) ∧
    (∀ fs e, alook user st.userManagers = some fs →
      env.updateResult user files = .error e →
      alook user (syncManager env st user groups).1.userManagers = some fs) ∧
    (∀ e, alook user st.userManagers = none → env.applyConfigOk = true →
      env.updateResult user files = .error e →
      alook user (syncManager env st user groups).1.userManagers = some []) := by
  rcases hl : alook user st.userManagers with _ | fs'
  · -- fresh tenant: newManager path
    rcases hnm : newManager env
        { st with configUpdates := abump user st.configUpdates } user
      with ⟨r, st2, effs⟩
    have hst2 : st2 =
        (getOrCreateNotifier env
          { st with configUpdates := abump user st.configUpdates } user).2.1 := by
      have h2 := newManager_state env
        { st with configUpdates := abump user st.configUpdates } user
      rw [hnm] at h2
      exact h2
    obtain ⟨hum2, hring2, hcu2, hnt2, _⟩ := goc_shape env
      { st with configUpdates := abump user st.configUpdates } user
    rw [← hst2] at hum2 hring2 hcu2 hnt2
    have heffs : ∀ e' ∈ effs,
        e' = Effect.applyNotifierConfig user ∨ e' = Effect.createManager user := by
      have h3 := newManager_effects env
        { st with configUpdates := abump user st.configUpdates } user
      rw [hnm] at h3
      exact h3
    have heffsNotInc : ∀ e' ∈ effs, e' ≠ Effect.incConfigUpdates user := by
      intro e' he'
      rcases heffs e' he' with rfl | rfl <;> simp
    have hres := newManager_result env
      { st with configUpdates := abump user st.configUpdates } user
    rw [hnm] at hres
    cases r with
    | error e0 =>
      have hsm : syncManager env st user groups =
          (st2, [Effect.mapRules user, Effect.incConfigUpdates user] ++
            effs ++ [Effect.syncErr user]) := by
        simp only [syncManager, hm, eq_self_iff_true, if_true, hl, hnm]
      rw [hsm]
      refine ⟨?_, ?_, ?_, ?_, ?_⟩
      · show alookC user st2.configUpdates = alookC user st.configUpdates + 1
        rw [hcu2]
        exact alookC_abump_self user st.configUpdates
      · refine ⟨effs ++ [Effect.syncErr user], rfl, ?_⟩
        intro hmem
        have hne : ∀ e' ∈ effs ++ [Effect.syncErr user],
            e' ≠ Effect.incConfigUpdates user :=
          fm_append heffsNotInc (fm_cons (by simp) fm_nil)
        exact hne _ hmem rfl
      · intro _ _ _
        rw [hum2]
        exact hl
      · intro fs e hfs _
        exact Option.noConfusion hfs
      · intro e h1 h2 h3
        rw [goc_ok_of_applyOk env
          { st with configUpdates := abump user st.configUpdates } user h2] at hres
        exact Except.noConfusion hres
    | ok v =>
      rcases hu : env.updateResult user files with e' | uv
      · have hsm : syncManager env st user groups =
            ({ st2 with userManagers := st2.userManagers ++ [(user, [])] },
             [Effect.mapRules user, Effect.incConfigUpdates user] ++ effs ++
               [Effect.runManager user] ++
               [Effect.updateManager user files, Effect.syncErr user]) := by
          simp only [syncManager, hm, eq_self_iff_true, if_true, hl, hnm, hu]
        rw [hsm]
        refine ⟨?_, ?_, ?_, ?_, ?_⟩
        · show alookC user st2.configUpdates = alookC user st.configUpdates + 1
          rw [hcu2]
          exact alookC_abump_self user st.configUpdates
        · refine ⟨effs ++ [Effect.runManager user] ++
            [Effect.updateManager user files, Effect.syncErr user], rfl, ?_⟩
          intro hmem
          have hne : ∀ e' ∈ effs ++ [Effect.runManager user] ++
              [Effect.updateManager user files, Effect.syncErr user],
              e' ≠ Effect.incConfigUpdates user :=
            fm_append (fm_append heffsNotInc (fm_cons (by simp) fm_nil))
              (fm_cons (by simp) (fm_cons (by simp) fm_nil))
          exact hne _ hmem rfl
        · intro h1 h2 h3
          have hno1 : alook user ({ st with
              configUpdates := abump user st.configUpdates } : RulerState).notifiers =
              none := h2
          rw [goc_err_of_applyBad env
            { st with configUpdates := abump user st.configUpdates } user hno1 h3]
            at hres
          exact Except.noConfusion hres
        · intro fs e hfs _
          exact Option.noConfusion hfs
        · intro e _ _ _
          show alook user (st2.userManagers ++ [(user, [])]) = some []
          have hno2 : alook user st2.userManagers = none := by
            rw [hum2]
            exact hl
          rw [alook_append, hno2]
          show (if user = user then some ([] : List String) else none) = some []
          rw [if_pos rfl]
      · have hsm : syncManager env st user groups =
            ({ st2 with userManagers := aset user files (st2.userManagers ++ [(user, [])]) },
             [Effect.mapRules user, Effect.incConfigUpdates user] ++ effs ++
               [Effect.runManager user] ++ [Effect.updateManager user files]) := by
          simp only [syncManager, hm, eq_self_iff_true, if_true, hl, hnm, hu]
        rw [hsm]
        refine ⟨?_, ?_, ?_, ?_, ?_⟩
        · show alookC user st2.configUpdates = alookC user st.configUpdates + 1
          rw [hcu2]
          exact alookC_abump_self user st.configUpdates
        · refine ⟨effs ++ [Effect.runManager user] ++
            [Effect.updateManager user files], rfl, ?_⟩
          intro hmem
          have hne : ∀ e' ∈ effs ++ [Effect.runManager user] ++
              [Effect.updateManager user files],
              e' ≠ Effect.incConfigUpdates user :=
            fm_append (fm_append heffsNotInc (fm_cons (by simp) fm_nil))
              (fm_cons (by simp) fm_nil)
          exact hne _ hmem rfl
        · intro h1 h2 h3
          have hno1 : alook user ({ st with
              configUpdates := abump user st.configUpdates } : RulerState).notifiers =
              none := h2
          rw [goc_err_of_applyBad env
            { st with configUpdates := abump user st.configUpdates } user hno1 h3]
            at hres
          exact Except.noConfusion hres
        · intro fs e hfs _
          exact Option.noConfusion hfs
        · intro e _ _ hu2
          exact Except.noConfusion hu2
  · -- existing manager
    rcases hu : env.updateResult user files with e' | uv
    · have hsm : syncManager env st user groups =
          ({ st with configUpdates := abump user st.configUpdates },
           [Effect.mapRules user, Effect.incConfigUpdates user] ++
             [Effect.updateManager user files, Effect.syncErr user]) := by
        simp only [syncManager, hm, eq_self_iff_true, if_true, hl, hu]
      rw [hsm]
      refine ⟨alookC_abump_self user st.configUpdates, ?_, ?_, ?_, ?_⟩
      · refine ⟨[Effect.updateManager user files, Effect.syncErr user], rfl, ?_⟩
        intro hmem
        have hne : ∀ e' ∈ [Effect.updateManager user files, Effect.syncErr user],
            e' ≠ Effect.incConfigUpdates user :=
          fm_cons (by simp) (fm_cons (by simp) fm_nil)
        exact hne _ hmem rfl
      · intro h1 _ _
        exact Option.noConfusion h1
      · intro fs e hfs _
        show alook user st.userManagers = some fs
        rw [hl]
        exact hfs
      · intro e h1 _ _
        exact Option.noConfusion h1
    · have hsm : syncManager env st user groups =
          ({ st with configUpdates := abump user st.configUpdates, userManagers := aset user files st.userManagers },
           [Effect.mapRules user, Effect.incConfigUpdates user] ++
             [Effect.updateManager user files]) := by
        simp only [syncManager, hm, eq_self_iff_true, if_true, hl, hu]
      rw [hsm]
      refine ⟨alookC_abump_self user st.configUpdates, ?_, ?_, ?_, ?_⟩
      · refine ⟨[Effect.updateManager user files], rfl, ?_⟩
        intro hmem
        have hne : ∀ e' ∈ [Effect.updateManager user files],
            e' ≠ Effect.incConfigUpdates user :=
          fm_cons (by simp) fm_nil
        exact hne _ hmem rfl
      · intro h1 _ _
        exact Option.noConfusion h1
      · intro fs e hfs hu2
        exact Except.noConfusion hu2
      · intro e h1 _ _
        exact Option.noConfusion h1

/-- C10 witness: the amended theorem applied at the failing-`Update`
environment: the counter is bumped and the freshly created evaluator remains
registered despite the failed `Update`. -/
theorem syncManager_counter_before_update_witness :
    alookC "t" (syncManager env10 initState "t" []).1.configUpdates =
      alookC "t" initState.configUpdates + 1 ∧
    alook "t" (syncManager env10 initState "t" []).1.userManagers = some [] :=
  ⟨(syncManager_counter_before_update env10 initState "t" [] ["f"] rfl).1,
   (syncManager_counter_before_update env10 initState "t" [] ["f"]
      rfl).2.2.2.2 "update failed" rfl rfl rfl⟩

end Ruler
